import Mathlib

/-!
Verification of the sprite-packing subsystem of `asphalt` (`src/pack/mod.rs`,
`src/config.rs`).  The Rust code is shallowly embedded: pure functions become
Lean functions, machine integers become `Nat` (the arithmetic in the packing
paths stays far below `2^32` for every feasible input, and Rust would panic on
overflow rather than wrap in the configurations exercised here), fallible code
returns `Except`/`Option`, and the page-creation `while` loop of
`pack_sprites_to_atlases` is given an explicit fuel parameter, `none` standing
for divergence of the original loop.

`src/pack/rect.rs`, `src/pack/algorithm.rs`, `src/pack/manifest.rs` and
`src/util/alpha_bleed.rs` are not present in the source tree; the definitions
for those modules are modelled from the specification (each is marked
`Modelled from the spec:`).  Everything else is translated from the source.
-/

namespace Asphalt

/-! ### Geometry primitives

Modelled from the spec: `src/pack/rect.rs` is not in the source tree.  §3 of
the spec describes `Size{width, height}` and `Rect{x, y, width, height}` as
plain geometric values with containment/overlap queries. -/

structure Size where
  width : Nat
  height : Nat
  deriving DecidableEq, Repr

structure Rect where
  x : Nat
  y : Nat
  width : Nat
  height : Nat
  deriving DecidableEq, Repr

/-- Two rectangles overlap when their intersection has positive area
(`max` of the left edges is strictly left of the `min` of the right edges,
on both axes, spelled out as plain inequalities). -/
def Rect.overlaps (a b : Rect) : Prop :=
  a.x < a.x + a.width ∧ a.x < b.x + b.width ∧
  b.x < a.x + a.width ∧ b.x < b.x + b.width ∧
  a.y < a.y + a.height ∧ a.y < b.y + b.height ∧
  b.y < a.y + a.height ∧ b.y < b.y + b.height

instance (a b : Rect) : Decidable (a.overlaps b) := by
  unfold Rect.overlaps; infer_instance

/-- `outer` contains `inner` (non-strict, both axes). -/
def Rect.contains (outer inner : Rect) : Prop :=
  outer.x ≤ inner.x ∧ inner.x + inner.width ≤ outer.x + outer.width ∧
  outer.y ≤ inner.y ∧ inner.y + inner.height ≤ outer.y + outer.height

instance (a b : Rect) : Decidable (a.contains b) := by
  unfold Rect.contains; infer_instance

/-- The rectangle lies fully inside the page `[0, width) × [0, height)`. -/
def Rect.inBounds (page : Size) (r : Rect) : Prop :=
  r.x + r.width ≤ page.width ∧ r.y + r.height ≤ page.height

instance (s : Size) (r : Rect) : Decidable (r.inBounds s) := by
  unfold Rect.inBounds; infer_instance

theorem Rect.contains_refl (r : Rect) : r.contains r := by
  unfold Rect.contains; omega

theorem Rect.inBounds_of_contains {page : Size} {f p : Rect}
    (hc : f.contains p) (hb : f.inBounds page) : p.inBounds page := by
  unfold Rect.contains at hc
  unfold Rect.inBounds at *
  omega

theorem Rect.overlaps_mono_left {f a b : Rect}
    (hc : f.contains a) (ho : a.overlaps b) : f.overlaps b := by
  unfold Rect.contains at hc
  unfold Rect.overlaps at *
  omega

theorem Rect.overlaps_symm {a b : Rect} (h : a.overlaps b) : b.overlaps a := by
  unfold Rect.overlaps at *
  omega

theorem Rect.eq_of_parts {a b : Rect} (hx : a.x = b.x) (hy : a.y = b.y)
    (hw : a.width = b.width) (hh : a.height = b.height) : a = b := by
  obtain ⟨ax, ay, aw, ah⟩ := a
  obtain ⟨bx, byy, bw, bh⟩ := b
  simp only at hx hy hw hh
  subst hx
  subst hy
  subst hw
  subst hh
  rfl

/-! ### MaxRects bin packer

Modelled from the spec: `src/pack/algorithm.rs` is not in the source tree.
§4.4 of the spec: MaxRects-style packing maintains the set of maximal free
rectangles on the page (which starts as one free rectangle equal to its full
size); for each request choose a free rectangle by a best-fit heuristic,
place the item flush against one corner, split every free rectangle
intersected by the new placement, and discard any free rectangle fully
contained within another.  A request fails only when no free rectangle is
large enough. -/

structure MaxRectsPacker where
  pageSize : Size
  free : List Rect
  deriving DecidableEq, Repr

def MaxRectsPacker.new (s : Size) : MaxRectsPacker :=
  ⟨s, [⟨0, 0, s.width, s.height⟩]⟩

/-- The request fits inside the free rectangle. -/
def fitsIn (req : Size) (f : Rect) : Bool :=
  decide (req.width ≤ f.width) && decide (req.height ≤ f.height)

/-- Best-area-fit score: leftover free area after placing the request. -/
def leftoverScore (req : Size) (f : Rect) : Nat :=
  f.width * f.height - req.width * req.height

/-- Choose the fitting free rectangle with the least leftover area
(first such rectangle on ties). -/
def pickBest (req : Size) : List Rect → Option Rect
  | [] => none
  | f :: rest =>
    if fitsIn req f then
      match pickBest req rest with
      | some g => if leftoverScore req g < leftoverScore req f then some g else some f
      | none => some f
    else pickBest req rest

/-- Maximal sub-rectangles of the free rectangle `f` not meeting the new
placement `pl`; a free rectangle not intersected by `pl` is kept whole. -/
def splitFree (pl f : Rect) : List Rect :=
  if f.overlaps pl then
    (if f.x < pl.x then [⟨f.x, f.y, pl.x - f.x, f.height⟩] else []) ++
    (if pl.x + pl.width < f.x + f.width then
      [⟨pl.x + pl.width, f.y, f.x + f.width - (pl.x + pl.width), f.height⟩] else []) ++
    (if f.y < pl.y then [⟨f.x, f.y, f.width, pl.y - f.y⟩] else []) ++
    (if pl.y + pl.height < f.y + f.height then
      [⟨f.x, pl.y + pl.height, f.width, f.y + f.height - (pl.y + pl.height)⟩] else [])
  else [f]

/-- Discard free rectangles fully contained in another free rectangle. -/
def pruneStep (acc : List Rect) (r : Rect) : List Rect :=
  if acc.any (fun a => decide (a.contains r)) then acc
  else r :: acc.filter (fun a => !(decide (r.contains a)))

def prune (l : List Rect) : List Rect := l.foldl pruneStep []

/-- Place one request: pick a free rectangle, place flush against its
top-left corner, re-split all free rectangles, prune contained ones. -/
def MaxRectsPacker.pack (st : MaxRectsPacker) (req : Size) :
    Option (Rect × MaxRectsPacker) :=
  match pickBest req st.free with
  | none => none
  | some f =>
    let pl : Rect := ⟨f.x, f.y, req.width, req.height⟩
    some (pl, ⟨st.pageSize, prune (st.free.flatMap (splitFree pl))⟩)

theorem pickBest_sound {req : Size} :
    ∀ {l : List Rect} {f : Rect}, pickBest req l = some f →
      f ∈ l ∧ fitsIn req f = true := by
  intro l
  induction l with
  | nil => intro f h; simp [pickBest] at h
  | cons a rest ih =>
    intro f h
    simp only [pickBest] at h
    by_cases ha : fitsIn req a
    · rw [if_pos ha] at h
      cases hrec : pickBest req rest with
      | none =>
        rw [hrec] at h
        cases h
        exact ⟨List.mem_cons_self _ _, ha⟩
      | some g =>
        rw [hrec] at h
        dsimp only at h
        by_cases hlt : leftoverScore req g < leftoverScore req a
        · rw [if_pos hlt] at h
          cases h
          rcases ih hrec with ⟨hm, hf⟩
          exact ⟨List.mem_cons_of_mem _ hm, hf⟩
        · rw [if_neg hlt] at h
          cases h
          exact ⟨List.mem_cons_self _ _, ha⟩
    · rw [if_neg ha] at h
      rcases ih h with ⟨hm, hf⟩
      exact ⟨List.mem_cons_of_mem _ hm, hf⟩

theorem splitFree_sound {pl f g : Rect} (hg : g ∈ splitFree pl f) :
    f.contains g ∧ ¬ g.overlaps pl := by
  unfold splitFree at hg
  by_cases ho : f.overlaps pl
  · rw [if_pos ho] at hg
    unfold Rect.overlaps at ho
    simp only [List.mem_append, List.mem_ite_nil_right, List.mem_singleton] at hg
    unfold Rect.contains Rect.overlaps
    rcases hg with ((⟨h1, rfl⟩ | ⟨h1, rfl⟩) | ⟨h1, rfl⟩) | ⟨h1, rfl⟩ <;>
      (constructor
       · simp only
         omega
       · simp only
         omega)
  · rw [if_neg ho] at hg
    rcases List.mem_singleton.mp hg with rfl
    exact ⟨Rect.contains_refl g, ho⟩

theorem pruneStep_subset {acc : List Rect} {r x : Rect}
    (hx : x ∈ pruneStep acc r) : x ∈ acc ∨ x = r := by
  unfold pruneStep at hx
  by_cases hc : acc.any (fun a => decide (a.contains r))
  · rw [if_pos hc] at hx
    exact Or.inl hx
  · rw [if_neg hc] at hx
    rcases List.mem_cons.mp hx with rfl | hmem
    · exact Or.inr rfl
    · exact Or.inl (List.mem_of_mem_filter hmem)

theorem prune_subset {l : List Rect} {x : Rect} (hx : x ∈ prune l) : x ∈ l := by
  unfold prune at hx
  suffices h : ∀ (ls : List Rect) (acc : List Rect),
      x ∈ ls.foldl pruneStep acc → x ∈ acc ∨ x ∈ ls by
    rcases h l [] hx with hmem | hmem
    · cases hmem
    · exact hmem
  intro ls
  induction ls with
  | nil => intro acc h; exact Or.inl h
  | cons a rest ih =>
    intro acc h
    rcases ih (pruneStep acc a) h with hacc | hrest
    · rcases pruneStep_subset hacc with hmem | rfl
      · exact Or.inl hmem
      · exact Or.inr (List.mem_cons_self _ _)
    · exact Or.inr (List.mem_cons_of_mem _ hrest)

/-- Invariant tying the packer's free rectangles to the rectangles already
placed on this page: every free rectangle is inside the page and disjoint
from every placed rectangle. -/
def FreeInv (page : Size) (free : List Rect) (placed : List Rect) : Prop :=
  ∀ f ∈ free, f.inBounds page ∧ ∀ r ∈ placed, ¬ f.overlaps r

theorem MaxRectsPacker.new_freeInv (s : Size) :
    FreeInv s (MaxRectsPacker.new s).free [] := by
  intro f hf
  simp only [MaxRectsPacker.new, List.mem_singleton] at hf
  subst hf
  constructor
  · unfold Rect.inBounds
    simp only
    omega
  · intro r hr
    cases hr

theorem MaxRectsPacker.pack_sound {st st' : MaxRectsPacker} {req : Size}
    {pl : Rect} {placed : List Rect}
    (hinv : FreeInv st.pageSize st.free placed)
    (hp : st.pack req = some (pl, st')) :
    st'.pageSize = st.pageSize ∧
    pl.width = req.width ∧ pl.height = req.height ∧
    pl.inBounds st.pageSize ∧
    (∀ r ∈ placed, ¬ pl.overlaps r) ∧
    FreeInv st.pageSize st'.free (pl :: placed) := by
  unfold MaxRectsPacker.pack at hp
  cases hpick : pickBest req st.free with
  | none => rw [hpick] at hp; cases hp
  | some f =>
    rw [hpick] at hp
    simp only [Option.some.injEq, Prod.mk.injEq] at hp
    rcases hp with ⟨rfl, rfl⟩
    rcases pickBest_sound hpick with ⟨hfmem, hfits⟩
    rcases hinv f hfmem with ⟨hfb, hfdisj⟩
    simp only [fitsIn, Bool.and_eq_true, decide_eq_true_eq] at hfits
    have hcont : f.contains ⟨f.x, f.y, req.width, req.height⟩ := by
      unfold Rect.contains
      simp only
      omega
    refine ⟨rfl, rfl, rfl, Rect.inBounds_of_contains hcont hfb, ?_, ?_⟩
    · intro r hr ho
      exact hfdisj r hr (Rect.overlaps_mono_left hcont ho)
    · intro g hg
      have hg' := prune_subset hg
      rcases List.mem_flatMap.mp hg' with ⟨f0, hf0, hgsplit⟩
      rcases splitFree_sound hgsplit with ⟨hc0, hnpl⟩
      rcases hinv f0 hf0 with ⟨hf0b, hf0disj⟩
      refine ⟨Rect.inBounds_of_contains hc0 hf0b, ?_⟩
      intro r hr
      rcases List.mem_cons.mp hr with rfl | hr'
      · exact hnpl
      · intro ho
        exact hf0disj r hr' (Rect.overlaps_mono_left hc0 ho)

/-! ### Configuration (`src/config.rs`)

`OutputOptions` (file names, codegen) is not read anywhere in the packing
pipeline of `pack/mod.rs` and is omitted.  The animated-mode `frame_pattern`
string is compiled by the external `regex` crate; the compiled matcher is
passed to the pipeline as an explicit function parameter (`FrameMatcher`). -/

inductive PackSort where
  | area
  | maxSide
  | name
  deriving DecidableEq, Repr

inductive PackAlgorithm where
  | maxRects
  | guillotine
  deriving DecidableEq, Repr

inductive AnimationLayout where
  | horizontalStrip
  | verticalStrip
  | grid (columns : Option Nat)
  deriving DecidableEq, Repr

structure StaticOptions where
  max_size : Nat × Nat
  power_of_two : Bool
  padding : Nat
  extrude : Nat
  allow_trim : Bool
  algorithm : PackAlgorithm
  page_limit : Option Nat
  sort : PackSort
  dedupe : Bool
  deriving DecidableEq, Repr

structure AnimatedOptions where
  min_frames : Nat
  layout : AnimationLayout
  default_frame_duration_ms : Nat
  default_loop : Bool
  padding : Nat
  extrude : Nat
  deriving DecidableEq, Repr

inductive PackMode where
  | Static : StaticOptions → PackMode
  | Animated : AnimatedOptions → PackMode
  deriving DecidableEq, Repr

structure PackOptions where
  enabled : Bool
  mode : PackMode
  deriving DecidableEq, Repr

def PackOptions.padding (o : PackOptions) : Nat :=
  match o.mode with
  | .Static opts => opts.padding
  | .Animated opts => opts.padding

def PackOptions.extrude (o : PackOptions) : Nat :=
  match o.mode with
  | .Static opts => opts.extrude
  | .Animated opts => opts.extrude

def PackOptions.max_size (o : PackOptions) : Nat × Nat :=
  match o.mode with
  | .Static opts => opts.max_size
  | .Animated _ => (2048, 2048)

def PackOptions.power_of_two (o : PackOptions) : Bool :=
  match o.mode with
  | .Static opts => opts.power_of_two
  | .Animated _ => false

def PackOptions.page_limit (o : PackOptions) : Option Nat :=
  match o.mode with
  | .Static opts => opts.page_limit
  | .Animated _ => none

def PackOptions.sort (o : PackOptions) : PackSort :=
  match o.mode with
  | .Static opts => opts.sort
  | .Animated _ => .area

def PackOptions.dedupe (o : PackOptions) : Bool :=
  match o.mode with
  | .Static opts => opts.dedupe
  | .Animated _ => false

def PackOptions.allow_trim (o : PackOptions) : Bool :=
  match o.mode with
  | .Static opts => opts.allow_trim
  | .Animated _ => false

/-! ### Images and assets

The Rust code keeps sprites as encoded PNG bytes and re-decodes them on
demand; since the PNG encoder of the `image` crate is a deterministic
function of the pixel grid, images are embedded as their decoded RGBA pixel
grid, and re-encoding is the identity on this representation.  Out-of-range
pixel writes are clipped (every unguarded `put_pixel` in the source is
reached only with in-range coordinates). -/

structure Pixel where
  r : Nat
  g : Nat
  b : Nat
  a : Nat
  deriving DecidableEq, Repr

structure ImgData where
  rows : List (List Pixel)
  deriving DecidableEq, Repr

def ImgData.height (i : ImgData) : Nat := i.rows.length

def ImgData.width (i : ImgData) : Nat := (i.rows.headD []).length

def mkImage (w h : Nat) : ImgData :=
  ⟨List.replicate h (List.replicate w ⟨0, 0, 0, 0⟩)⟩

def ImgData.getPixel? (i : ImgData) (x y : Nat) : Option Pixel :=
  (i.rows.getD y []).get? x

def ImgData.setPixel (i : ImgData) (x y : Nat) (p : Pixel) : ImgData :=
  ⟨i.rows.set y ((i.rows.getD y []).set x p)⟩

/-- `AssetType::Image(..)` vs. every other asset kind; only the image kinds
participate in packing. -/
inductive AssetType where
  | image
  | other
  deriving DecidableEq, Repr

/-- A decoded source asset.  `stem` models `path.file_stem()` (already a
plain string here); `data` is the decoded image. -/
structure Asset where
  stem : String
  data : ImgData
  hash : String
  ty : AssetType
  deriving DecidableEq, Repr

structure Sprite where
  name : String
  data : ImgData
  size : Size
  hash : String
  deriving DecidableEq, Repr

structure AnimationStrip where
  strip_sprite : Sprite
  frame_count : Nat
  frame_size : Size
  layout : AnimationLayout
  frame_duration_ms : Nat
  loops : Bool
  deriving DecidableEq, Repr

inductive PackableItem where
  | Static : Sprite → PackableItem
  | Animated : AnimationStrip → PackableItem
  deriving DecidableEq, Repr

def PackableItem.sprite : PackableItem → Sprite
  | .Static s => s
  | .Animated a => a.strip_sprite

structure PackedSprite where
  item : PackableItem
  rect : Rect
  trimmed : Bool
  sprite_source_size : Option Rect
  deriving DecidableEq, Repr

structure Atlas where
  page_index : Nat
  image_data : ImgData
  size : Size
  sprites : List PackedSprite
  deriving DecidableEq, Repr

/-! ### Manifest

Modelled from the spec: `src/pack/manifest.rs` is not in the source tree.
§3: `AtlasManifest{input name, collection of SpriteInfo keyed by name}`;
§9: the manifest does not deduplicate names, so the collection is kept as
the list of entries in insertion order. -/

inductive AnimationLayoutInfo where
  | horizontalStrip
  | verticalStrip
  | grid (columns : Nat)
  deriving DecidableEq, Repr

structure AnimationInfo where
  frame_count : Nat
  frame_size : Size
  layout : AnimationLayoutInfo
  frame_duration_ms : Nat
  loops : Bool
  deriving DecidableEq, Repr

structure SpriteInfo where
  name : String
  rect : Rect
  source_size : Size
  trimmed : Bool
  sprite_source_size : Option Rect
  page_index : Nat
  animation : Option AnimationInfo
  deriving DecidableEq, Repr

structure AtlasManifest where
  input_name : String
  sprites : List SpriteInfo
  deriving DecidableEq, Repr

def AtlasManifest.new (inputName : String) : AtlasManifest := ⟨inputName, []⟩

def AtlasManifest.add_sprite (m : AtlasManifest) (si : SpriteInfo) : AtlasManifest :=
  ⟨m.input_name, m.sprites ++ [si]⟩

structure PackResult where
  atlases : List Atlas
  manifest : AtlasManifest
  deriving DecidableEq, Repr

inductive PackError where
  | notEnabled : String → PackError
  | oversizeSprite : String → Nat → Nat → Nat → Nat → PackError
  | pageLimitExceeded : Nat → Nat → PackError
  deriving DecidableEq, Repr

/-! ### The packing pipeline (`Packer` in `src/pack/mod.rs`) -/

namespace Packer

def mkStaticSprite (a : Asset) : Sprite :=
  ⟨a.stem, a.data, ⟨a.data.width, a.data.height⟩, a.hash⟩

/-- Static-mode conversion (`assets_to_sprites`, static branch): skip
non-image assets; with dedupe on, skip any asset whose content hash was
already seen and record fresh hashes. -/
def staticAssetsGo (dedupe : Bool) (seen : List String) :
    List Asset → List PackableItem
  | [] => []
  | a :: rest =>
    if a.ty = AssetType.image then
      if dedupe && seen.contains a.hash then
        staticAssetsGo dedupe seen rest
      else
        PackableItem.Static (mkStaticSprite a) ::
          staticAssetsGo dedupe (if dedupe then a.hash :: seen else seen) rest
    else
      staticAssetsGo dedupe seen rest

/-- The compiled frame-naming regex, abstracted: `none` when the filename
stem does not match; on a match, the optional "name" capture and the
optional parsed numeric second capture. -/
def FrameMatcher : Type := String → Option (Option String × Option Nat)

/-- `BTreeMap<u32, Sprite>::insert`: keep frames sorted by frame number,
a duplicate frame number overwrites the earlier sprite. -/
def insertFrame : List (Nat × Sprite) → Nat → Sprite → List (Nat × Sprite)
  | [], k, s => [(k, s)]
  | (k0, s0) :: rest, k, s =>
    if k < k0 then (k, s) :: (k0, s0) :: rest
    else if k = k0 then (k, s) :: rest
    else (k0, s0) :: insertFrame rest k s

/-- Insert one frame into the animation groups (association list in
first-insertion key order; the `HashMap` iteration order is applied later,
as an explicit reordering). -/
def insertGroup : List (String × List (Nat × Sprite)) → String → Nat → Sprite →
    List (String × List (Nat × Sprite))
  | [], g, k, s => [(g, [(k, s)])]
  | (g0, fr) :: rest, g, k, s =>
    if g = g0 then (g0, insertFrame fr k s) :: rest
    else (g0, fr) :: insertGroup rest g k s

/-- First pass of `detect_animations`: split the image assets into static
sprites (stem does not match the pattern) and animation groups. -/
def detectGo (m : FrameMatcher) (statics : List Sprite)
    (groups : List (String × List (Nat × Sprite))) :
    List Asset → List Sprite × List (String × List (Nat × Sprite))
  | [] => (statics, groups)
  | a :: rest =>
    if a.ty = AssetType.image then
      let sprite : Sprite := ⟨a.stem, a.data, ⟨a.data.width, a.data.height⟩, a.hash⟩
      match m a.stem with
      | some (nameOpt, numOpt) =>
        let animName := nameOpt.getD a.stem
        let frameNum := numOpt.getD 0
        detectGo m statics (insertGroup groups animName frameNum sprite) rest
      | none => detectGo m (statics ++ [sprite]) groups rest
    else
      detectGo m statics groups rest

/-- Exact ceiling of the square root.  The source computes
`(frame_count as f32).sqrt().ceil() as u32`; IEEE single-precision square
root and ceiling agree with the exact natural-number ceiling for every
count below `2^24`, i.e. for every feasible frame count. -/
def ceilSqrt (n : Nat) : Nat :=
  if Nat.sqrt n * Nat.sqrt n = n then Nat.sqrt n else Nat.sqrt n + 1

/-- `u32::div_ceil`. -/
def divCeil (a b : Nat) : Nat := (a + b - 1) / b

/-- Copy `src` into `dst` at offset `(ox, oy)`, iterating the source pixels
and dropping any pixel falling outside the destination (the source guards
`x_offset + x < strip_width` etc.; `ImgData.setPixel` clips identically). -/
def blitAt (dst : ImgData) (src : ImgData) (ox oy : Nat) : ImgData :=
  (List.range src.height).foldl
    (fun im y =>
      (List.range src.width).foldl
        (fun im2 x =>
          match src.getPixel? x y with
          | some p => im2.setPixel (ox + x) (oy + y) p
          | none => im2)
        im)
    dst

/-- `combine_frames_into_strip`: compose the ordered frames of one
animation into a single strip sprite.  `none` models the `bail!` on an
empty frame list (unreachable behind the min-frames threshold). -/
def combineFramesIntoStrip (animName : String) (frames : List Sprite)
    (layout : AnimationLayout) (frameDurationMs : Nat) (loops : Bool) :
    Option AnimationStrip :=
  match frames with
  | [] => none
  | f0 :: _ =>
    let frameWidth := f0.size.width
    let frameHeight := f0.size.height
    let frameCount := frames.length
    let dims : Nat × Nat × Nat :=
      match layout with
      | .horizontalStrip => (frameWidth * frameCount, frameHeight, frameCount)
      | .verticalStrip => (frameWidth, frameHeight * frameCount, 1)
      | .grid columns =>
        let cols := columns.getD (ceilSqrt frameCount)
        let rows := divCeil frameCount cols
        (frameWidth * cols, frameHeight * rows, cols)
    let stripWidth := dims.1
    let stripHeight := dims.2.1
    let columns := dims.2.2
    let stripImage := frames.enum.foldl
      (fun im if0 =>
        let i := if0.1
        let offsets : Nat × Nat :=
          match layout with
          | .horizontalStrip => (i * frameWidth, 0)
          | .verticalStrip => (0, i * frameHeight)
          | .grid _ => (i % columns * frameWidth, i / columns * frameHeight)
        blitAt im if0.2.data offsets.1 offsets.2)
      (mkImage stripWidth stripHeight)
    some
      { strip_sprite :=
          ⟨animName, stripImage, ⟨stripWidth, stripHeight⟩, f0.hash⟩
        frame_count := frameCount
        frame_size := ⟨frameWidth, frameHeight⟩
        layout := layout
        frame_duration_ms := frameDurationMs
        loops := loops }

/-- Second pass of `detect_animations`: dissolve groups below the
min-frames threshold into static sprites (in frame-number order), and
synthesize one strip per qualifying group. -/
def processGroups (aopts : AnimatedOptions)
    (gs : List (String × List (Nat × Sprite))) : List PackableItem :=
  gs.flatMap fun g =>
    if g.2.length < aopts.min_frames then
      g.2.map (fun fs => PackableItem.Static fs.2)
    else
      match combineFramesIntoStrip g.1 (g.2.map (·.2)) aopts.layout
          aopts.default_frame_duration_ms aopts.default_loop with
      | some strip => [PackableItem.Animated strip]
      | none => []

/-- `detect_animations`, parameterised by the iteration order of the
`HashMap` over animation groups: the source iterates
`for (anim_name, frames) in animation_groups` over a `std::collections`
`HashMap`, whose order is incidental (randomly seeded per process), so it
is passed here as an explicit `reorder` of the insertion-ordered groups. -/
def detectAnimationsOrd (m : FrameMatcher) (aopts : AnimatedOptions)
    (reorder : List (String × List (Nat × Sprite)) →
      List (String × List (Nat × Sprite)))
    (assets : List Asset) : List PackableItem :=
  let sg := detectGo m [] [] assets
  sg.1.map PackableItem.Static ++ processGroups aopts (reorder sg.2)

def assetsToSprites (opts : PackOptions) (m : FrameMatcher)
    (reorder : List (String × List (Nat × Sprite)) →
      List (String × List (Nat × Sprite)))
    (assets : List Asset) : List PackableItem :=
  match opts.mode with
  | .Animated aopts => detectAnimationsOrd m aopts reorder assets
  | .Static sopts => staticAssetsGo sopts.dedupe [] assets

/-- The comparison closure of `sort_sprites`: primary key per the
configured sort, ties always broken by ascending name. -/
def cmpItems (k : PackSort) (a b : PackableItem) : Ordering :=
  let sa := a.sprite
  let sb := b.sprite
  let primary :=
    match k with
    | .area => compare (sb.size.width * sb.size.height) (sa.size.width * sa.size.height)
    | .maxSide => compare (max sb.size.width sb.size.height)
        (max sa.size.width sa.size.height)
    | .name => compare sa.name sb.name
  primary.then (compare sa.name sb.name)

/-- The non-strict order induced by the comparison closure. -/
def itemLE (k : PackSort) (a b : PackableItem) : Prop :=
  cmpItems k a b ≠ Ordering.gt

instance (k : PackSort) : DecidableRel (itemLE k) := fun a b => by
  unfold itemLE; infer_instance

/-- `sort_sprites`: `slice::sort_by` is a stable sort by the comparison
closure, embedded as a stable insertion sort over the induced order. -/
def sortSprites (opts : PackOptions) (items : List PackableItem) :
    List PackableItem :=
  List.insertionSort (itemLE opts.sort) items

/-- `validate_sprite_sizes`: fail on the first item whose representative
sprite exceeds the configured maximum page dimensions on either axis,
reporting the sprite's name and measured size (the `bail!` message is
embedded as the structured `oversizeSprite` error). -/
def validateSpriteSizes (opts : PackOptions) :
    List PackableItem → Except PackError Unit
  | [] => .ok ()
  | item :: rest =>
    let s := item.sprite
    if s.size.width > opts.max_size.1 ∨ s.size.height > opts.max_size.2 then
      .error (.oversizeSprite s.name s.size.width s.size.height
        opts.max_size.1 opts.max_size.2)
    else
      validateSpriteSizes opts rest

/-- Coordinates of the pixels with non-zero alpha, row-major (the bounding
box of these is the `trim_sprite` bounding box). -/
def opaquePositions (img : ImgData) : List (Nat × Nat) :=
  (List.range img.height).flatMap fun y =>
    (List.range img.width).filterMap fun x =>
      match img.getPixel? x y with
      | some p => if p.a ≠ 0 then some (x, y) else none
      | none => none

/-- `trim_sprite`: crop the sprite to the tightest bounding box of its
non-transparent pixels; `none` (second component) when trimming is
disabled, the image is degenerate, fully transparent, or already tight.
On a trim, the sprite's stored size becomes the post-trim size and the
returned rect records the original (pre-trim) size. -/
def trimSprite (opts : PackOptions) (s : Sprite) : Sprite × Option Rect :=
  if !opts.allow_trim then (s, none)
  else
    let w := s.data.width
    let h := s.data.height
    if w = 0 ∨ h = 0 then (s, none)
    else
      match opaquePositions s.data with
      | [] => (s, none)
      | p0 :: ps =>
        let minX := ps.foldl (fun m q => min m q.1) p0.1
        let maxX := ps.foldl (fun m q => max m q.1) p0.1
        let minY := ps.foldl (fun m q => min m q.2) p0.2
        let maxY := ps.foldl (fun m q => max m q.2) p0.2
        let trimmedWidth := maxX - minX + 1
        let trimmedHeight := maxY - minY + 1
        if trimmedWidth = w ∧ trimmedHeight = h then (s, none)
        else
          let cropped : ImgData :=
            ⟨((s.data.rows.drop minY).take trimmedHeight).map
              (fun row => (row.drop minX).take trimmedWidth)⟩
          ({ s with
              data := cropped
              size := ⟨trimmedWidth, trimmedHeight⟩ },
            some ⟨0, 0, s.size.width, s.size.height⟩)

/-- `trim_sprite` applied through `sprite_mut` of a packable item. -/
def trimItem (opts : PackOptions) : PackableItem → PackableItem × Option Rect
  | .Static s =>
    let sr := trimSprite opts s
    (.Static sr.1, sr.2)
  | .Animated a =>
    let sr := trimSprite opts a.strip_sprite
    (.Animated { a with strip_sprite := sr.1 }, sr.2)

/-- One ring of `apply_extrude` at distance `e`: replicate the placed
sprite's edge pixels outward, clipped to the page bounds exactly as the
source's bound checks do. -/
def extrudePass (img : ImgData) (rect : Rect) (e : Nat) : ImgData :=
  let img1 := (List.range rect.height).foldl
    (fun im y =>
      let im2 :=
        if e ≤ rect.x then
          match im.getPixel? rect.x (rect.y + y) with
          | some p => im.setPixel (rect.x - e) (rect.y + y) p
          | none => im
        else im
      if rect.x + rect.width + e ≤ im2.width then
        match im2.getPixel? (rect.x + rect.width - 1) (rect.y + y) with
        | some p => im2.setPixel (rect.x + rect.width + e - 1) (rect.y + y) p
        | none => im2
      else im2)
    img
  (List.range rect.width).foldl
    (fun im x =>
      let im2 :=
        if e ≤ rect.y then
          match im.getPixel? (rect.x + x) rect.y with
          | some p => im.setPixel (rect.x + x) (rect.y - e) p
          | none => im
        else im
      if rect.y + rect.height + e ≤ im2.height then
        match im2.getPixel? (rect.x + x) (rect.y + rect.height - 1) with
        | some p => im2.setPixel (rect.x + x) (rect.y + rect.height + e - 1) p
        | none => im2
      else im2)
    img1

def applyExtrude (extrude : Nat) (img : ImgData) (rect : Rect) : ImgData :=
  (List.range extrude).foldl (fun im e0 => extrudePass im rect (e0 + 1)) img

/-- Modelled from the spec: `src/util/alpha_bleed.rs` is not in the source
tree.  §4.6: a whole-canvas post-process propagating opaque-pixel color
into adjacent fully-transparent pixels without changing alpha. -/
def alphaBleed (img : ImgData) : ImgData :=
  ⟨(List.range img.height).map fun y =>
    (List.range img.width).map fun x =>
      match img.getPixel? x y with
      | none => ⟨0, 0, 0, 0⟩
      | some p =>
        if p.a = 0 then
          let neighbors := [img.getPixel? (x - 1) y, img.getPixel? (x + 1) y,
            img.getPixel? x (y - 1), img.getPixel? x (y + 1)]
          match (neighbors.filterMap id).find? (fun q => q.a ≠ 0) with
          | some q => ⟨q.r, q.g, q.b, 0⟩
          | none => p
        else p⟩

/-- The per-sprite copy loop of `render_atlas`: iterate the placement
rect, read the sprite pixel checked, write it at the placed position. -/
def blitRect (dst : ImgData) (src : ImgData) (rect : Rect) : ImgData :=
  (List.range rect.height).foldl
    (fun im y =>
      (List.range rect.width).foldl
        (fun im2 x =>
          match src.getPixel? x y with
          | some p => im2.setPixel (rect.x + x) (rect.y + y) p
          | none => im2)
        im)
    dst

/-- `render_atlas`: composite every placed sprite onto a blank page
canvas, extrude each placement if configured, then alpha-bleed the whole
page and encode it (encoding is the identity on the pixel grid here). -/
def renderAtlas (opts : PackOptions) (packed : List PackedSprite)
    (atlasSize : Size) : ImgData :=
  let blitted := packed.foldl
    (fun im ps =>
      let im2 := blitRect im ps.item.sprite.data ps.rect
      if opts.extrude > 0 then applyExtrude opts.extrude im2 ps.rect else im2)
    (mkImage atlasSize.width atlasSize.height)
  alphaBleed blitted

/-- `u32::next_power_of_two`. -/
def nextPow2 (n : Nat) : Nat :=
  if n ≤ 1 then 1 else 2 ^ (Nat.log2 (n - 1) + 1)

/-- The per-item loop body of `pack_single_atlas`: trim, grow by padding,
try to place; a successful placement records the rect shrunk back inward
by the padding, a failed one defers the item to the next page. -/
def packGo (opts : PackOptions) :
    List PackableItem → MaxRectsPacker → List PackedSprite →
      List PackableItem → List PackedSprite × List PackableItem
  | [], _, packed, unpacked => (packed, unpacked)
  | item :: rest, st, packed, unpacked =>
    let tr := trimItem opts item
    let sp := tr.1.sprite
    let padding := opts.padding
    let required : Size :=
      ⟨sp.size.width + 2 * padding, sp.size.height + 2 * padding⟩
    match st.pack required with
    | some rs =>
      let spriteRect : Rect :=
        ⟨rs.1.x + padding, rs.1.y + padding, sp.size.width, sp.size.height⟩
      packGo opts rest rs.2
        (packed ++ [⟨tr.1, spriteRect, tr.2.isSome, tr.2⟩]) unpacked
    | none => packGo opts rest st packed (unpacked ++ [tr.1])

/-- The page size used by `pack_single_atlas`: the configured maximum,
each dimension rounded up to the next power of two when configured. -/
def resolvedPageSize (opts : PackOptions) : Size :=
  if opts.power_of_two then
    ⟨nextPow2 opts.max_size.1, nextPow2 opts.max_size.2⟩
  else
    ⟨opts.max_size.1, opts.max_size.2⟩

/-- `pack_single_atlas`: resolve the page size (next power of two if
configured), pack as many items as fit, render the page. -/
def packSingleAtlas (opts : PackOptions) (items : List PackableItem)
    (pageIndex : Nat) : Atlas × List PackableItem :=
  let atlasSize : Size := resolvedPageSize opts
  let pu := packGo opts items (MaxRectsPacker.new atlasSize) [] []
  let imageData := renderAtlas opts pu.1 atlasSize
  (⟨pageIndex, imageData, atlasSize, pu.1⟩, pu.2)

/-- The `while !remaining_items.is_empty()` loop of
`pack_sprites_to_atlases`, with explicit fuel; `none` models divergence of
the source loop (the source has no stall guard). -/
def packLoop (opts : PackOptions) :
    Nat → List PackableItem → Nat → Option (List Atlas)
  | _, [], _ => some []
  | 0, _ :: _, _ => none
  | fuel + 1, item :: rest, pageIndex =>
    let au := packSingleAtlas opts (item :: rest) pageIndex
    (packLoop opts fuel au.2 (pageIndex + 1)).map (au.1 :: ·)

/-- `pack_sprites_to_atlases`.  One page per loop pass consumes at least
one item whenever progress is made, so `items.length + 1` passes are
enough for every terminating run of the source loop. -/
def packSpritesToAtlases (opts : PackOptions) (items : List PackableItem) :
    Option (List Atlas) :=
  packLoop opts (items.length + 1) items 0

/-- `create_manifest`. -/
def createManifest (atlases : List Atlas) (inputName : String) : AtlasManifest :=
  atlases.foldl
    (fun m atlas =>
      atlas.sprites.foldl
        (fun m2 ps =>
          let s := ps.item.sprite
          let animation : Option AnimationInfo :=
            match ps.item with
            | .Animated anim =>
              let layoutInfo : AnimationLayoutInfo :=
                match anim.layout with
                | .horizontalStrip => .horizontalStrip
                | .verticalStrip => .verticalStrip
                | .grid columns => .grid (columns.getD 4)
              some ⟨anim.frame_count, anim.frame_size, layoutInfo,
                anim.frame_duration_ms, anim.loops⟩
            | .Static _ => none
          m2.add_sprite ⟨s.name, ps.rect, s.size, ps.trimmed,
            ps.sprite_source_size, atlas.page_index, animation⟩)
        m)
    (AtlasManifest.new inputName)

/-- `pack_assets`: the whole per-input pipeline.  The result is wrapped in
an outer `Option`, `none` modelling non-termination of the page loop. -/
def packAssets (opts : PackOptions) (m : FrameMatcher)
    (reorder : List (String × List (Nat × Sprite)) →
      List (String × List (Nat × Sprite)))
    (assets : List Asset) (inputName : String) :
    Option (Except PackError PackResult) :=
  if !opts.enabled then some (.error (.notEnabled inputName))
  else
    let sprites := assetsToSprites opts m reorder assets
    if sprites.isEmpty then
      some (.ok ⟨[], AtlasManifest.new inputName⟩)
    else
      let sortedSprites := sortSprites opts sprites
      match validateSpriteSizes opts sortedSprites with
      | .error e => some (.error e)
      | .ok _ =>
        match packSpritesToAtlases opts sortedSprites with
        | none => none
        | some atlases =>
          match opts.page_limit with
          | some limit =>
            if atlases.length > limit then
              some (.error (.pageLimitExceeded atlases.length limit))
            else
              some (.ok ⟨atlases, createManifest atlases inputName⟩)
          | none =>
            some (.ok ⟨atlases, createManifest atlases inputName⟩)

/-! ### Page invariant: placed rects stay inside the page and disjoint -/

/-- The padded rect handed to the bin packer, recovered from the stored
sprite rect (`pack_single_atlas` shrinks the packer's rect inward by the
padding on each side). -/
def padOf (p : Nat) (r : Rect) : Rect :=
  ⟨r.x - p, r.y - p, r.width + 2 * p, r.height + 2 * p⟩

theorem padOf_contains {p : Nat} {r : Rect} (hx : p ≤ r.x) (hy : p ≤ r.y) :
    (padOf p r).contains r := by
  unfold padOf Rect.contains
  simp only
  omega

/-- Bookkeeping invariant for the per-item loop of `pack_single_atlas`. -/
def PackedInv (pad : Nat) (page : Size) (packed : List PackedSprite) : Prop :=
  (∀ ps ∈ packed, pad ≤ ps.rect.x ∧ pad ≤ ps.rect.y ∧
    (padOf pad ps.rect).inBounds page) ∧
  List.Pairwise
    (fun a b => ¬ (padOf pad a.rect).overlaps (padOf pad b.rect)) packed

theorem packGo_inv (opts : PackOptions) (page : Size) :
    ∀ (items : List PackableItem) (st : MaxRectsPacker)
      (packed : List PackedSprite) (unpacked : List PackableItem),
      st.pageSize = page →
      FreeInv page st.free (packed.map (fun ps => padOf opts.padding ps.rect)) →
      PackedInv opts.padding page packed →
      PackedInv opts.padding page (packGo opts items st packed unpacked).1 := by
  intro items
  induction items with
  | nil =>
    intro st packed unpacked _ _ hpk
    exact hpk
  | cons item rest ih =>
    intro st packed unpacked hpage hfree hpk
    rw [packGo]
    cases hpack : st.pack ⟨(trimItem opts item).1.sprite.size.width + 2 * opts.padding,
        (trimItem opts item).1.sprite.size.height + 2 * opts.padding⟩ with
    | none =>
      exact ih st packed (unpacked ++ [(trimItem opts item).1]) hpage hfree hpk
    | some rs =>
      have hinv' : FreeInv st.pageSize st.free
          (packed.map (fun ps => padOf opts.padding ps.rect)) := by
        rw [hpage]; exact hfree
      obtain ⟨hpage', hw, hh, hbnd, hdisj, hfree'⟩ :=
        MaxRectsPacker.pack_sound hinv' hpack
      rw [hpage] at hpage' hbnd hfree'
      have hw' : rs.1.width =
          (trimItem opts item).1.sprite.size.width + 2 * opts.padding := hw
      have hh' : rs.1.height =
          (trimItem opts item).1.sprite.size.height + 2 * opts.padding := hh
      have hpadEq : padOf opts.padding
          ⟨rs.1.x + opts.padding, rs.1.y + opts.padding,
            (trimItem opts item).1.sprite.size.width,
            (trimItem opts item).1.sprite.size.height⟩ = rs.1 := by
        apply Rect.eq_of_parts <;> simp only [padOf] <;> omega
      show PackedInv opts.padding page
        (packGo opts rest rs.2
          (packed ++ [⟨(trimItem opts item).1,
            ⟨rs.1.x + opts.padding, rs.1.y + opts.padding,
              (trimItem opts item).1.sprite.size.width,
              (trimItem opts item).1.sprite.size.height⟩,
            (trimItem opts item).2.isSome, (trimItem opts item).2⟩])
          unpacked).1
      apply ih rs.2 _ unpacked hpage'
      · intro f hf
        obtain ⟨hfb, hfd⟩ := hfree' f hf
        refine ⟨hfb, ?_⟩
        intro r hr
        rw [List.map_append] at hr
        rcases List.mem_append.mp hr with hr1 | hr2
        · exact hfd r (List.mem_cons_of_mem _ hr1)
        · obtain ⟨ps0, hps0, rfl⟩ := List.mem_map.mp hr2
          rcases List.mem_singleton.mp hps0 with rfl
          simp only
          rw [hpadEq]
          exact hfd rs.1 (List.mem_cons_self _ _)
      · obtain ⟨hA, hB⟩ := hpk
        constructor
        · intro ps hps
          rcases List.mem_append.mp hps with hmem | hmem
          · exact hA ps hmem
          · rcases List.mem_singleton.mp hmem with rfl
            simp only
            refine ⟨Nat.le_add_left _ _, Nat.le_add_left _ _, ?_⟩
            rw [hpadEq]
            exact hbnd
        · rw [List.pairwise_append]
          refine ⟨hB, List.pairwise_singleton _ _, ?_⟩
          intro a ha b hb
          rcases List.mem_singleton.mp hb with rfl
          simp only
          rw [hpadEq]
          intro hov
          exact hdisj (padOf opts.padding a.rect)
            (List.mem_map_of_mem (fun ps => padOf opts.padding ps.rect) ha)
            (Rect.overlaps_symm hov)

theorem packSingleAtlas_inv (opts : PackOptions) (items : List PackableItem)
    (pageIndex : Nat) :
    (∀ ps ∈ (packSingleAtlas opts items pageIndex).1.sprites,
      ps.rect.inBounds (packSingleAtlas opts items pageIndex).1.size) ∧
    List.Pairwise (fun a b => ¬ a.rect.overlaps b.rect)
      (packSingleAtlas opts items pageIndex).1.sprites := by
  have hinv := packGo_inv opts (resolvedPageSize opts) items
    (MaxRectsPacker.new (resolvedPageSize opts)) [] [] rfl
    (by
      intro f hf
      have := MaxRectsPacker.new_freeInv (resolvedPageSize opts) f hf
      exact ⟨this.1, by intro r hr; cases hr⟩)
    (by
      refine ⟨?_, List.Pairwise.nil⟩
      intro ps hps
      cases hps)
  obtain ⟨hA, hB⟩ := hinv
  constructor
  · intro ps hps
    obtain ⟨hx, hy, hbnd⟩ := hA ps hps
    exact Rect.inBounds_of_contains (padOf_contains hx hy) hbnd
  · refine hB.imp_of_mem ?_
    intro a b ha hb hnp hov
    obtain ⟨hax, hay, _⟩ := hA a ha
    obtain ⟨hbx, hby, _⟩ := hA b hb
    apply hnp
    have h1 : (padOf opts.padding a.rect).overlaps b.rect :=
      Rect.overlaps_mono_left (padOf_contains hax hay) hov
    have h2 : (padOf opts.padding b.rect).overlaps (padOf opts.padding a.rect) :=
      Rect.overlaps_mono_left (padOf_contains hbx hby) (Rect.overlaps_symm h1)
    exact Rect.overlaps_symm h2

theorem packLoop_inv (opts : PackOptions) :
    ∀ (fuel : Nat) (items : List PackableItem) (pageIndex : Nat)
      (atlases : List Atlas),
      packLoop opts fuel items pageIndex = some atlases →
      ∀ a ∈ atlases,
        a.size = resolvedPageSize opts ∧
        (∀ ps ∈ a.sprites, ps.rect.inBounds a.size) ∧
        List.Pairwise (fun x y => ¬ x.rect.overlaps y.rect) a.sprites := by
  intro fuel
  induction fuel with
  | zero =>
    intro items pageIndex atlases h
    cases items with
    | nil =>
      rw [packLoop] at h
      cases h
      intro a ha
      cases ha
    | cons i rest =>
      rw [packLoop] at h
      cases h
  | succ fuel ih =>
    intro items pageIndex atlases h
    cases items with
    | nil =>
      rw [packLoop] at h
      cases h
      intro a ha
      cases ha
    | cons i rest =>
      rw [packLoop] at h
      cases htl : packLoop opts fuel
          (packSingleAtlas opts (i :: rest) pageIndex).2 (pageIndex + 1) with
      | none => rw [htl] at h; cases h
      | some tl =>
        rw [htl] at h
        simp only [Option.map_some', Option.some.injEq] at h
        subst h
        intro a ha
        rcases List.mem_cons.mp ha with rfl | hmem
        · obtain ⟨h1, h2⟩ := packSingleAtlas_inv opts (i :: rest) pageIndex
          exact ⟨rfl, h1, h2⟩
        · exact ih _ _ tl htl a hmem

end Packer

/-! ### Order facts about the sort comparator -/

theorem then_ne_gt_iff {x y : Ordering} :
    x.then y ≠ Ordering.gt ↔
      x = Ordering.lt ∨ (x = Ordering.eq ∧ y ≠ Ordering.gt) := by
  cases x <;> simp [Ordering.then]

theorem strCompare_ne_gt {a b : String} :
    compare a b ≠ Ordering.gt ↔ a ≤ b := by
  rw [← not_lt]
  exact not_congr compare_gt_iff_gt

theorem itemLE_area_iff {a b : PackableItem} :
    Packer.itemLE .area a b ↔
      b.sprite.size.width * b.sprite.size.height <
        a.sprite.size.width * a.sprite.size.height ∨
      (b.sprite.size.width * b.sprite.size.height =
        a.sprite.size.width * a.sprite.size.height ∧
        a.sprite.name ≤ b.sprite.name) := by
  unfold Packer.itemLE Packer.cmpItems
  rw [then_ne_gt_iff, Nat.compare_eq_lt, Nat.compare_eq_eq, strCompare_ne_gt]

theorem itemLE_maxSide_iff {a b : PackableItem} :
    Packer.itemLE .maxSide a b ↔
      max b.sprite.size.width b.sprite.size.height <
        max a.sprite.size.width a.sprite.size.height ∨
      (max b.sprite.size.width b.sprite.size.height =
        max a.sprite.size.width a.sprite.size.height ∧
        a.sprite.name ≤ b.sprite.name) := by
  unfold Packer.itemLE Packer.cmpItems
  rw [then_ne_gt_iff, Nat.compare_eq_lt, Nat.compare_eq_eq, strCompare_ne_gt]

theorem itemLE_name_iff {a b : PackableItem} :
    Packer.itemLE .name a b ↔ a.sprite.name ≤ b.sprite.name := by
  unfold Packer.itemLE Packer.cmpItems
  rw [then_ne_gt_iff, compare_lt_iff_lt, compare_eq_iff_eq, strCompare_ne_gt]
  constructor
  · rintro (h | ⟨_, h⟩)
    · exact le_of_lt h
    · exact h
  · intro h
    rcases lt_or_eq_of_le h with h' | h'
    · exact Or.inl h'
    · exact Or.inr ⟨h', h⟩

theorem itemLE_total (k : PackSort) (a b : PackableItem) :
    Packer.itemLE k a b ∨ Packer.itemLE k b a := by
  cases k with
  | area =>
    rw [itemLE_area_iff, itemLE_area_iff]
    rcases Nat.lt_trichotomy (b.sprite.size.width * b.sprite.size.height)
        (a.sprite.size.width * a.sprite.size.height) with h | h | h
    · exact Or.inl (Or.inl h)
    · rcases le_total a.sprite.name b.sprite.name with hn | hn
      · exact Or.inl (Or.inr ⟨h, hn⟩)
      · exact Or.inr (Or.inr ⟨h.symm, hn⟩)
    · exact Or.inr (Or.inl h)
  | maxSide =>
    rw [itemLE_maxSide_iff, itemLE_maxSide_iff]
    rcases Nat.lt_trichotomy (max b.sprite.size.width b.sprite.size.height)
        (max a.sprite.size.width a.sprite.size.height) with h | h | h
    · exact Or.inl (Or.inl h)
    · rcases le_total a.sprite.name b.sprite.name with hn | hn
      · exact Or.inl (Or.inr ⟨h, hn⟩)
      · exact Or.inr (Or.inr ⟨h.symm, hn⟩)
    · exact Or.inr (Or.inl h)
  | name =>
    rw [itemLE_name_iff, itemLE_name_iff]
    exact le_total a.sprite.name b.sprite.name

theorem itemLE_trans {k : PackSort} {a b c : PackableItem}
    (hab : Packer.itemLE k a b) (hbc : Packer.itemLE k b c) :
    Packer.itemLE k a c := by
  cases k with
  | area =>
    rw [itemLE_area_iff] at hab hbc ⊢
    rcases hab with h1 | ⟨h1, h1n⟩ <;> rcases hbc with h2 | ⟨h2, h2n⟩
    · exact Or.inl (lt_trans h2 h1)
    · exact Or.inl (h2.trans_lt h1)
    · exact Or.inl (lt_of_lt_of_eq h2 h1)
    · exact Or.inr ⟨h2.trans h1, le_trans h1n h2n⟩
  | maxSide =>
    rw [itemLE_maxSide_iff] at hab hbc ⊢
    rcases hab with h1 | ⟨h1, h1n⟩ <;> rcases hbc with h2 | ⟨h2, h2n⟩
    · exact Or.inl (lt_trans h2 h1)
    · exact Or.inl (h2.trans_lt h1)
    · exact Or.inl (lt_of_lt_of_eq h2 h1)
    · exact Or.inr ⟨h2.trans h1, le_trans h1n h2n⟩
  | name =>
    rw [itemLE_name_iff] at hab hbc ⊢
    exact le_trans hab hbc

/-- Ties (mutual `≤`) force equal names: the name tiebreak resolves every
tie between items with distinct names. -/
theorem itemLE_antisymm_names {k : PackSort} {a b : PackableItem}
    (h1 : Packer.itemLE k a b) (h2 : Packer.itemLE k b a) :
    a.sprite.name = b.sprite.name := by
  cases k with
  | area =>
    rw [itemLE_area_iff] at h1 h2
    rcases h1 with h1l | ⟨h1e, h1n⟩ <;> rcases h2 with h2l | ⟨h2e, h2n⟩
    · exact absurd h1l (Nat.lt_asymm h2l)
    · exact absurd h1l (by rw [h2e]; exact lt_irrefl _)
    · exact absurd h2l (by rw [h1e]; exact lt_irrefl _)
    · exact le_antisymm h1n h2n
  | maxSide =>
    rw [itemLE_maxSide_iff] at h1 h2
    rcases h1 with h1l | ⟨h1e, h1n⟩ <;> rcases h2 with h2l | ⟨h2e, h2n⟩
    · exact absurd h1l (Nat.lt_asymm h2l)
    · exact absurd h1l (by rw [h2e]; exact lt_irrefl _)
    · exact absurd h2l (by rw [h1e]; exact lt_irrefl _)
    · exact le_antisymm h1n h2n
  | name =>
    rw [itemLE_name_iff] at h1 h2
    exact le_antisymm h1 h2

instance (k : PackSort) : IsTotal PackableItem (Packer.itemLE k) :=
  ⟨itemLE_total k⟩

instance (k : PackSort) : IsTrans PackableItem (Packer.itemLE k) :=
  ⟨fun _ _ _ => itemLE_trans⟩

/-- Two sorted permutations of each other are equal, needing antisymmetry
only on the elements of the lists themselves. -/
theorem sorted_perm_eq_on {α : Type} {r : α → α → Prop} :
    ∀ (l₁ l₂ : List α), l₁.Perm l₂ → l₁.Sorted r → l₂.Sorted r →
      (∀ a ∈ l₁, ∀ b ∈ l₁, r a b → r b a → a = b) → l₁ = l₂ := by
  intro l₁
  induction l₁ with
  | nil =>
    intro l₂ hp _ _ _
    exact hp.nil_eq
  | cons a t₁ ih =>
    intro l₂ hp hs₁ hs₂ hanti
    cases l₂ with
    | nil => exact absurd hp.eq_nil (by simp)
    | cons b t₂ =>
      have hbml₁ : b ∈ a :: t₁ := hp.mem_iff.mpr (List.mem_cons_self b t₂)
      have hab : a = b := by
        have haml₂ : a ∈ b :: t₂ := hp.mem_iff.mp (List.mem_cons_self a t₁)
        rcases List.mem_cons.mp haml₂ with h | h
        · exact h
        · have hrba : r b a := (List.sorted_cons.mp hs₂).1 a h
          rcases List.mem_cons.mp hbml₁ with h' | h'
          · exact h'.symm
          · have hrab : r a b := (List.sorted_cons.mp hs₁).1 b h'
            exact hanti a (List.mem_cons_self _ _) b hbml₁ hrab hrba
      subst hab
      have hpt : t₁.Perm t₂ := hp.cons_inv
      rw [ih t₂ hpt (List.sorted_cons.mp hs₁).2 (List.sorted_cons.mp hs₂).2 ?_]
      intro x hx y hy
      exact hanti x (List.mem_cons_of_mem _ hx) y (List.mem_cons_of_mem _ hy)

/-- The stable sort is insensitive to a permutation of its input whenever
no two distinct elements of the input tie under the comparator. -/
theorem insertionSort_eq_of_perm {k : PackSort} {l₁ l₂ : List PackableItem}
    (hp : l₁.Perm l₂)
    (hanti : ∀ a ∈ l₁, ∀ b ∈ l₁,
      Packer.itemLE k a b → Packer.itemLE k b a → a = b) :
    List.insertionSort (Packer.itemLE k) l₁ =
      List.insertionSort (Packer.itemLE k) l₂ := by
  apply sorted_perm_eq_on _ _
    ((List.perm_insertionSort _ l₁).trans (hp.trans (List.perm_insertionSort _ l₂).symm))
    (List.sorted_insertionSort _ l₁) (List.sorted_insertionSort _ l₂)
  intro x hx y hy
  exact hanti x ((List.perm_insertionSort _ l₁).mem_iff.mp hx)
    y ((List.perm_insertionSort _ l₁).mem_iff.mp hy)

/-- Pairwise-distinct names make the comparator antisymmetric on a list. -/
theorem antisymm_of_nodup_names {k : PackSort} {l : List PackableItem}
    (h : (l.map (fun i => i.sprite.name)).Nodup) :
    ∀ a ∈ l, ∀ b ∈ l,
      Packer.itemLE k a b → Packer.itemLE k b a → a = b := by
  intro a ha b hb h1 h2
  exact List.inj_on_of_nodup_map h ha hb (itemLE_antisymm_names h1 h2)

/-! ### Dedupe characterisation (C5) -/

/-- Refinement spec, following the claim's words: among image assets
sharing a content hash, exactly the first-encountered one produces a
`PackableItem`, every later one is skipped; non-image assets never
participate. -/
def firstPerHash : List Asset → List PackableItem
  | [] => []
  | a :: rest =>
    if a.ty = AssetType.image then
      PackableItem.Static (Packer.mkStaticSprite a) ::
        firstPerHash (rest.filter
          (fun b => !(decide (b.ty = AssetType.image) && b.hash == a.hash)))
    else firstPerHash rest
  termination_by l => l.length
  decreasing_by
    · exact Nat.lt_succ_of_le (List.length_filter_le _ _)
    · exact Nat.lt_succ_self _

theorem staticGo_dedupe_spec :
    ∀ (assets : List Asset) (seen : List String),
      Packer.staticAssetsGo true seen assets =
        firstPerHash (assets.filter
          (fun b => !(decide (b.ty = AssetType.image) && seen.contains b.hash))) := by
  intro assets
  induction assets with
  | nil =>
    intro seen
    simp only [Packer.staticAssetsGo, List.filter_nil, firstPerHash]
  | cons a rest ih =>
    intro seen
    rw [Packer.staticAssetsGo, List.filter_cons]
    by_cases himg : a.ty = AssetType.image
    · by_cases hseen : seen.contains a.hash = true
      · rw [if_pos himg, if_pos (by rw [hseen]; rfl)]
        have hcond : (!(decide (a.ty = AssetType.image) && seen.contains a.hash)) = false := by
          rw [hseen, decide_eq_true himg]
          rfl
        rw [hcond]
        simp only [Bool.false_eq_true, if_false]
        exact ih seen
      · have hseen' : seen.contains a.hash = false := by
          cases h : seen.contains a.hash
          · rfl
          · exact absurd h hseen
        rw [if_pos himg, if_neg (by rw [hseen']; exact Bool.false_ne_true)]
        have hcond : (!(decide (a.ty = AssetType.image) && seen.contains a.hash)) = true := by
          rw [hseen']
          simp
        rw [hcond]
        simp only [if_true]
        rw [firstPerHash]
        rw [if_pos himg]
        rw [List.filter_filter]
        rw [ih (a.hash :: seen)]
        congr 1
        congr 1
        apply List.filter_congr
        intro x _
        by_cases hximg : x.ty = AssetType.image <;>
          by_cases hxh : x.hash = a.hash <;>
            simp [hximg, hxh, List.contains_cons]
    · rw [if_neg himg]
      have hcond : (!(decide (a.ty = AssetType.image) && seen.contains a.hash)) = true := by
        rw [decide_eq_false himg]
        rfl
      rw [hcond]
      simp only [if_true]
      rw [firstPerHash]
      rw [if_neg himg]
      exact ih seen

theorem staticGo_nodedupe :
    ∀ (assets : List Asset) (seen : List String),
      Packer.staticAssetsGo false seen assets =
        (assets.filter (fun a => decide (a.ty = AssetType.image))).map
          (fun a => PackableItem.Static (Packer.mkStaticSprite a)) := by
  intro assets
  induction assets with
  | nil => intro seen; rfl
  | cons a rest ih =>
    intro seen
    rw [Packer.staticAssetsGo, List.filter_cons]
    by_cases himg : a.ty = AssetType.image
    · rw [if_pos himg]
      rw [if_neg (by simp)]
      rw [show (if (false : Bool) = true then a.hash :: seen else seen) = seen from by simp]
      rw [ih seen]
      rw [show (decide (a.ty = AssetType.image)) = true from decide_eq_true himg]
      rw [if_pos rfl, List.map_cons]
    · rw [if_neg himg]
      rw [show (decide (a.ty = AssetType.image)) = false from decide_eq_false himg]
      rw [if_neg Bool.false_ne_true]
      exact ih seen

/-! ### Frame conservation in animated mode (C5)

Animated-mode detection never drops an item by content hash: every image
asset survives — as a static sprite or as one frame of a group — whenever
the extracted `(group name, frame index)` keys are pairwise distinct (a
duplicate key overwrites a frame, by design, regardless of hashes). -/

/-- How many source sprites a packable item accounts for. -/
def itemWeight : PackableItem → Nat
  | .Static _ => 1
  | .Animated a => a.frame_count

def totalFrames (gs : List (String × List (Nat × Sprite))) : Nat :=
  (gs.map (fun g => g.2.length)).sum

def groupKeys (gs : List (String × List (Nat × Sprite))) : List (String × Nat) :=
  gs.flatMap (fun g => g.2.map (fun f => (g.1, f.1)))

/-- The `(animation name, frame index)` key `detect_animations` extracts
from each matching image asset. -/
def frameKeys (m : Packer.FrameMatcher) (assets : List Asset) :
    List (String × Nat) :=
  assets.filterMap fun a =>
    if a.ty = AssetType.image then
      (m a.stem).map (fun r => (r.1.getD a.stem, r.2.getD 0))
    else none

def imageCount (assets : List Asset) : Nat :=
  (assets.filter (fun a => decide (a.ty = AssetType.image))).length

theorem insertFrame_ne_nil (fr : List (Nat × Sprite)) (k : Nat) (s : Sprite) :
    Packer.insertFrame fr k s ≠ [] := by
  cases fr with
  | nil => simp [Packer.insertFrame]
  | cons f rest =>
    rw [Packer.insertFrame]
    split
    · simp
    · split <;> simp

theorem insertFrame_of_not_mem {fr : List (Nat × Sprite)} {k : Nat}
    (s : Sprite) (h : k ∉ fr.map (fun f => f.1)) :
    (Packer.insertFrame fr k s).length = fr.length + 1 ∧
    ((Packer.insertFrame fr k s).map (fun f => f.1)).Perm
      (k :: fr.map (fun f => f.1)) := by
  induction fr with
  | nil => exact ⟨rfl, List.Perm.refl _⟩
  | cons f rest ih =>
    simp only [List.map_cons, List.mem_cons, not_or] at h
    obtain ⟨hk0, hkrest⟩ := h
    rw [Packer.insertFrame]
    by_cases hlt : k < f.1
    · rw [if_pos hlt]
      exact ⟨rfl, List.Perm.refl _⟩
    · rw [if_neg hlt, if_neg hk0]
      obtain ⟨hlen, hperm⟩ := ih hkrest
      constructor
      · simp only [List.length_cons, hlen]
      · simp only [List.map_cons]
        exact (hperm.cons f.1).trans (List.Perm.swap _ _ _)

theorem insertGroup_of_not_mem {gs : List (String × List (Nat × Sprite))}
    {g : String} {k : Nat} (s : Sprite)
    (h : (g, k) ∉ groupKeys gs) (hne : ∀ q ∈ gs, q.2 ≠ []) :
    totalFrames (Packer.insertGroup gs g k s) = totalFrames gs + 1 ∧
    (groupKeys (Packer.insertGroup gs g k s)).Perm ((g, k) :: groupKeys gs) ∧
    (∀ q ∈ Packer.insertGroup gs g k s, q.2 ≠ []) := by
  induction gs with
  | nil =>
    refine ⟨rfl, List.Perm.refl _, ?_⟩
    intro q hq
    rcases List.mem_singleton.mp hq with rfl
    simp
  | cons g0 rest ih =>
    rw [Packer.insertGroup]
    have hkeys : groupKeys (g0 :: rest) =
        g0.2.map (fun f => (g0.1, f.1)) ++ groupKeys rest := rfl
    rw [hkeys] at h
    simp only [List.mem_append, not_or] at h
    obtain ⟨hhead, htail⟩ := h
    by_cases hg : g = g0.1
    · rw [if_pos hg]
      have hknot : k ∉ g0.2.map (fun f => f.1) := by
        intro hk
        apply hhead
        rcases List.mem_map.mp hk with ⟨f, hf, hfk⟩
        subst hg
        exact List.mem_map.mpr ⟨f, hf, by rw [hfk]⟩
      obtain ⟨hlen, hperm⟩ := insertFrame_of_not_mem s hknot
      refine ⟨?_, ?_, ?_⟩
      · unfold totalFrames
        simp only [List.map_cons, List.sum_cons, hlen]
        omega
      · have hmap : (groupKeys ((g0.1, Packer.insertFrame g0.2 k s) :: rest)) =
            (Packer.insertFrame g0.2 k s).map (fun f => (g0.1, f.1)) ++
              groupKeys rest := rfl
        rw [hmap, hkeys]
        subst hg
        have h1 : ((Packer.insertFrame g0.2 k s).map (fun f => (g0.1, f.1))).Perm
            ((g0.1, k) :: g0.2.map (fun f => (g0.1, f.1))) := by
          have := hperm.map (fun x => ((g0.1 : String), x))
          simp only [List.map_map, List.map_cons] at this
          simpa [Function.comp] using this
        exact (h1.append_right _).trans (List.Perm.refl _)
      · intro q hq
        rcases List.mem_cons.mp hq with rfl | hq'
        · exact insertFrame_ne_nil _ _ _
        · exact hne q (List.mem_cons_of_mem _ hq')
    · rw [if_neg hg]
      have hne' : ∀ q ∈ rest, q.2 ≠ [] := fun q hq =>
        hne q (List.mem_cons_of_mem _ hq)
      obtain ⟨hlen, hperm, hne''⟩ := ih htail hne'
      refine ⟨?_, ?_, ?_⟩
      · unfold totalFrames at hlen ⊢
        simp only [List.map_cons, List.sum_cons, hlen]
        omega
      · have hmap : groupKeys (g0 :: Packer.insertGroup rest g k s) =
            g0.2.map (fun f => (g0.1, f.1)) ++
              groupKeys (Packer.insertGroup rest g k s) := rfl
        rw [hmap, hkeys]
        refine ((List.Perm.append_left _ hperm).trans ?_)
        exact List.perm_middle
      · intro q hq
        rcases List.mem_cons.mp hq with rfl | hq'
        · exact hne g0 (List.mem_cons_self _ _)
        · exact hne'' q hq'

theorem detectGo_conserve (m : Packer.FrameMatcher) :
    ∀ (assets : List Asset) (statics : List Sprite)
      (groups : List (String × List (Nat × Sprite))),
      (groupKeys groups ++ frameKeys m assets).Nodup →
      (∀ q ∈ groups, q.2 ≠ []) →
      (Packer.detectGo m statics groups assets).1.length +
          totalFrames (Packer.detectGo m statics groups assets).2 =
        statics.length + totalFrames groups + imageCount assets ∧
      (∀ q ∈ (Packer.detectGo m statics groups assets).2, q.2 ≠ []) := by
  intro assets
  induction assets with
  | nil =>
    intro statics groups _ hne
    refine ⟨?_, hne⟩
    simp [Packer.detectGo, imageCount]
  | cons a rest ih =>
    intro statics groups hnd hne
    rw [Packer.detectGo]
    by_cases himg : a.ty = AssetType.image
    · rw [if_pos himg]
      have hfk : frameKeys m (a :: rest) =
          (if a.ty = AssetType.image then
            (m a.stem).map (fun r => (r.1.getD a.stem, r.2.getD 0))
          else none).toList ++ frameKeys m rest := by
        unfold frameKeys
        rw [List.filterMap_cons]
        cases h : (if a.ty = AssetType.image then
            (m a.stem).map (fun r => (r.1.getD a.stem, r.2.getD 0))
          else none) <;> simp [h]
      have himgc : imageCount (a :: rest) = imageCount rest + 1 := by
        unfold imageCount
        rw [List.filter_cons, show (decide (a.ty = AssetType.image)) = true from
          decide_eq_true himg, if_pos rfl]
        simp [Nat.add_comm]
      cases hm : m a.stem with
      | none =>
        have hnd' : (groupKeys groups ++ frameKeys m rest).Nodup := by
          rw [hfk, if_pos himg, hm] at hnd
          simpa using hnd
        obtain ⟨hsum, hq⟩ := ih (statics ++ [⟨a.stem, a.data,
          ⟨a.data.width, a.data.height⟩, a.hash⟩]) groups hnd' hne
        refine ⟨?_, hq⟩
        rw [hsum]
        simp only [List.length_append, List.length_singleton, himgc]
        omega
      | some r =>
        have hkmem : ((r.1.getD a.stem, r.2.getD 0) : String × Nat) ∉
            groupKeys groups := by
          rw [hfk, if_pos himg, hm] at hnd
          simp only [Option.map_some', Option.toList_some] at hnd
          intro hmem
          have := (List.nodup_append.mp hnd).2.2
          exact this hmem (List.mem_cons_self _ _)
        obtain ⟨hlen, hperm, hne'⟩ :=
          insertGroup_of_not_mem
            ⟨a.stem, a.data, ⟨a.data.width, a.data.height⟩, a.hash⟩ hkmem hne
        have hnd' : (groupKeys (Packer.insertGroup groups (r.1.getD a.stem)
            (r.2.getD 0) ⟨a.stem, a.data, ⟨a.data.width, a.data.height⟩, a.hash⟩) ++
            frameKeys m rest).Nodup := by
          apply List.Perm.nodup_iff ((hperm.append_right (frameKeys m rest)))
            |>.mpr
          rw [hfk, if_pos himg, hm] at hnd
          simp only [Option.map_some', Option.toList_some] at hnd
          exact (List.perm_middle.symm.nodup_iff).mpr hnd
        obtain ⟨hsum, hq⟩ := ih statics _ hnd' hne'
        refine ⟨?_, hq⟩
        rw [hsum, hlen, himgc]
        omega
    · rw [if_neg himg]
      have hfk : frameKeys m (a :: rest) = frameKeys m rest := by
        unfold frameKeys
        rw [List.filterMap_cons]
        rw [if_neg himg]
      have himgc : imageCount (a :: rest) = imageCount rest := by
        unfold imageCount
        rw [List.filter_cons, show (decide (a.ty = AssetType.image)) = false from
          decide_eq_false himg]
        rw [if_neg Bool.false_ne_true]
      rw [hfk] at hnd
      obtain ⟨hsum, hq⟩ := ih statics groups hnd hne
      exact ⟨by rw [hsum, himgc], hq⟩

theorem weight_map_static (l : List Sprite) :
    ((l.map PackableItem.Static).map itemWeight).sum = l.length := by
  induction l with
  | nil => rfl
  | cons s rest ih =>
    simp only [List.map_cons, List.sum_cons, List.length_cons] at ih ⊢
    rw [ih, show itemWeight (PackableItem.Static s) = 1 from rfl]
    omega

theorem weight_map_static_pairs (l : List (Nat × Sprite)) :
    (((l.map (fun fs => PackableItem.Static fs.2))).map itemWeight).sum =
      l.length := by
  induction l with
  | nil => rfl
  | cons s rest ih =>
    simp only [List.map_cons, List.sum_cons, List.length_cons] at ih ⊢
    rw [ih, show itemWeight (PackableItem.Static s.2) = 1 from rfl]
    omega

theorem combine_frame_count {animName : String} {frames : List Sprite}
    {layout : AnimationLayout} {dur : Nat} {loops : Bool}
    {strip : AnimationStrip}
    (h : Packer.combineFramesIntoStrip animName frames layout dur loops =
      some strip) :
    strip.frame_count = frames.length := by
  cases frames with
  | nil => cases h
  | cons f0 rest =>
    rw [Packer.combineFramesIntoStrip.eq_def] at h
    dsimp only at h
    simp only [Option.some.injEq] at h
    subst h
    rfl

theorem combine_isSome_of_ne_nil {animName : String} {frames : List Sprite}
    (layout : AnimationLayout) (dur : Nat) (loops : Bool)
    (h : frames ≠ []) :
    (Packer.combineFramesIntoStrip animName frames layout dur loops).isSome := by
  cases frames with
  | nil => exact absurd rfl h
  | cons f0 rest => rfl

theorem processGroups_weight (aopts : AnimatedOptions) :
    ∀ gs : List (String × List (Nat × Sprite)),
      (∀ g ∈ gs, g.2 ≠ []) →
      ((Packer.processGroups aopts gs).map itemWeight).sum = totalFrames gs := by
  intro gs
  induction gs with
  | nil => intro _; rfl
  | cons g rest ih =>
    intro hne
    unfold Packer.processGroups at ih ⊢
    rw [List.flatMap_cons, List.map_append, List.sum_append,
      ih (fun q hq => hne q (List.mem_cons_of_mem _ hq))]
    have hgoal : ((if g.2.length < aopts.min_frames then
        g.2.map (fun fs => PackableItem.Static fs.2)
      else
        match Packer.combineFramesIntoStrip g.1 (g.2.map (·.2)) aopts.layout
            aopts.default_frame_duration_ms aopts.default_loop with
        | some strip => [PackableItem.Animated strip]
        | none => []).map itemWeight).sum = g.2.length := by
      by_cases hmin : g.2.length < aopts.min_frames
      · rw [if_pos hmin]
        exact weight_map_static_pairs g.2
      · rw [if_neg hmin]
        have hne' : g.2.map (fun f => f.2) ≠ [] := by
          intro hnil
          exact hne g (List.mem_cons_self _ _) (List.map_eq_nil_iff.mp hnil)
        cases hc : Packer.combineFramesIntoStrip g.1 (g.2.map (·.2)) aopts.layout
            aopts.default_frame_duration_ms aopts.default_loop with
        | none =>
          exact absurd (combine_isSome_of_ne_nil _ _ _ hne')
            (by rw [hc]; simp)
        | some strip =>
          simp only [List.map_cons, List.map_nil, List.sum_cons, List.sum_nil]
          rw [show itemWeight (PackableItem.Animated strip) = strip.frame_count
            from rfl]
          rw [combine_frame_count hc, List.length_map]
          omega
    rw [hgoal]
    unfold totalFrames
    simp [Nat.add_comm]

theorem trimSprite_congr {o1 o2 : PackOptions}
    (hat : o1.allow_trim = o2.allow_trim) (s : Sprite) :
    Packer.trimSprite o1 s = Packer.trimSprite o2 s := by
  unfold Packer.trimSprite
  rw [hat]

theorem trimItem_congr {o1 o2 : PackOptions}
    (hat : o1.allow_trim = o2.allow_trim) (item : PackableItem) :
    Packer.trimItem o1 item = Packer.trimItem o2 item := by
  unfold Packer.trimItem
  cases item <;> (dsimp only; rw [trimSprite_congr hat])

theorem packGo_congr {o1 o2 : PackOptions}
    (hat : o1.allow_trim = o2.allow_trim) (hpad : o1.padding = o2.padding) :
    ∀ (items : List PackableItem) (st : MaxRectsPacker)
      (packed : List PackedSprite) (unpacked : List PackableItem),
      Packer.packGo o1 items st packed unpacked =
        Packer.packGo o2 items st packed unpacked := by
  intro items
  induction items with
  | nil => intro st packed unpacked; rfl
  | cons item rest ih =>
    intro st packed unpacked
    rw [Packer.packGo, Packer.packGo, trimItem_congr hat, hpad]
    cases st.pack
        ⟨(Packer.trimItem o2 item).1.sprite.size.width + 2 * o2.padding,
          (Packer.trimItem o2 item).1.sprite.size.height + 2 * o2.padding⟩ with
    | none => exact ih st packed _
    | some rs => exact ih rs.2 _ unpacked

theorem renderAtlas_congr {o1 o2 : PackOptions}
    (hext : o1.extrude = o2.extrude) (packed : List PackedSprite)
    (atlasSize : Size) :
    Packer.renderAtlas o1 packed atlasSize =
      Packer.renderAtlas o2 packed atlasSize := by
  unfold Packer.renderAtlas
  rw [hext]

theorem packSingleAtlas_congr {o1 o2 : PackOptions}
    (hat : o1.allow_trim = o2.allow_trim) (hpad : o1.padding = o2.padding)
    (hext : o1.extrude = o2.extrude) (hpot : o1.power_of_two = o2.power_of_two)
    (hms : o1.max_size = o2.max_size)
    (items : List PackableItem) (pageIndex : Nat) :
    Packer.packSingleAtlas o1 items pageIndex =
      Packer.packSingleAtlas o2 items pageIndex := by
  unfold Packer.packSingleAtlas Packer.resolvedPageSize
  rw [hpot, hms]
  dsimp only
  rw [packGo_congr hat hpad, renderAtlas_congr hext]

theorem packLoop_congr {o1 o2 : PackOptions}
    (hat : o1.allow_trim = o2.allow_trim) (hpad : o1.padding = o2.padding)
    (hext : o1.extrude = o2.extrude) (hpot : o1.power_of_two = o2.power_of_two)
    (hms : o1.max_size = o2.max_size) :
    ∀ (fuel : Nat) (items : List PackableItem) (pageIndex : Nat),
      Packer.packLoop o1 fuel items pageIndex =
        Packer.packLoop o2 fuel items pageIndex := by
  intro fuel
  induction fuel with
  | zero =>
    intro items pageIndex
    cases items <;> rfl
  | succ fuel ih =>
    intro items pageIndex
    cases items with
    | nil => rfl
    | cons item rest =>
      rw [Packer.packLoop, Packer.packLoop,
        packSingleAtlas_congr hat hpad hext hpot hms, ih]

theorem validate_congr {o1 o2 : PackOptions} (hms : o1.max_size = o2.max_size) :
    ∀ items : List PackableItem,
      Packer.validateSpriteSizes o1 items = Packer.validateSpriteSizes o2 items := by
  intro items
  induction items with
  | nil => rfl
  | cons item rest ih =>
    rw [Packer.validateSpriteSizes, Packer.validateSpriteSizes, hms, ih]

/-! ### Size validation (C7) -/

theorem validate_ok_iff (opts : PackOptions) :
    ∀ items : List PackableItem,
      Packer.validateSpriteSizes opts items = Except.ok () ↔
        ∀ item ∈ items, item.sprite.size.width ≤ opts.max_size.1 ∧
          item.sprite.size.height ≤ opts.max_size.2 := by
  intro items
  induction items with
  | nil => simp [Packer.validateSpriteSizes]
  | cons item rest ih =>
    rw [Packer.validateSpriteSizes]
    by_cases hov : item.sprite.size.width > opts.max_size.1 ∨
        item.sprite.size.height > opts.max_size.2
    · rw [if_pos hov]
      constructor
      · intro h; cases h
      · intro h
        obtain ⟨h1, h2⟩ := h item (List.mem_cons_self _ _)
        omega
    · rw [if_neg hov]
      rw [ih]
      constructor
      · intro h
        intro x hx
        rcases List.mem_cons.mp hx with rfl | hx'
        · omega
        · exact h x hx'
      · intro h x hx
        exact h x (List.mem_cons_of_mem _ hx)

theorem validate_error_shape (opts : PackOptions) :
    ∀ (items : List PackableItem) (e : PackError),
      Packer.validateSpriteSizes opts items = Except.error e →
      ∃ n w h, e = PackError.oversizeSprite n w h opts.max_size.1 opts.max_size.2 := by
  intro items
  induction items with
  | nil => intro e h; cases h
  | cons item rest ih =>
    intro e h
    rw [Packer.validateSpriteSizes] at h
    by_cases hov : item.sprite.size.width > opts.max_size.1 ∨
        item.sprite.size.height > opts.max_size.2
    · rw [if_pos hov] at h
      cases h
      exact ⟨_, _, _, rfl⟩
    · rw [if_neg hov] at h
      exact ih e h

theorem validate_error_sound (opts : PackOptions) :
    ∀ (items : List PackableItem) (n : String) (w h mw mh : Nat),
      Packer.validateSpriteSizes opts items =
        Except.error (PackError.oversizeSprite n w h mw mh) →
      mw = opts.max_size.1 ∧ mh = opts.max_size.2 ∧
      ∃ item ∈ items, item.sprite.name = n ∧ item.sprite.size.width = w ∧
        item.sprite.size.height = h ∧ (mw < w ∨ mh < h) := by
  intro items
  induction items with
  | nil => intro n w h mw mh hcontr; cases hcontr
  | cons item rest ih =>
    intro n w h mw mh heq
    rw [Packer.validateSpriteSizes] at heq
    by_cases hov : item.sprite.size.width > opts.max_size.1 ∨
        item.sprite.size.height > opts.max_size.2
    · rw [if_pos hov] at heq
      cases heq
      exact ⟨rfl, rfl, item, List.mem_cons_self _ _, rfl, rfl, rfl, by omega⟩
    · rw [if_neg hov] at heq
      obtain ⟨h1, h2, x, hx, hrest⟩ := ih n w h mw mh heq
      exact ⟨h1, h2, x, List.mem_cons_of_mem _ hx, hrest⟩

/-- `pack_assets` on an enabled input with a nonempty item list: the
remaining pipeline, written out. -/
theorem packAssets_eq_branch (opts : PackOptions) (m : Packer.FrameMatcher)
    (reorder : List (String × List (Nat × Sprite)) →
      List (String × List (Nat × Sprite)))
    (assets : List Asset) (inputName : String)
    (hen : opts.enabled = true)
    (hne : Packer.assetsToSprites opts m reorder assets ≠ []) :
    Packer.packAssets opts m reorder assets inputName =
      (match Packer.validateSpriteSizes opts (Packer.sortSprites opts
          (Packer.assetsToSprites opts m reorder assets)) with
      | .error e => some (.error e)
      | .ok _ =>
        match Packer.packSpritesToAtlases opts (Packer.sortSprites opts
            (Packer.assetsToSprites opts m reorder assets)) with
        | none => none
        | some atlases =>
          match opts.page_limit with
          | some limit =>
            if atlases.length > limit then
              some (.error (.pageLimitExceeded atlases.length limit))
            else
              some (.ok ⟨atlases, Packer.createManifest atlases inputName⟩)
          | none =>
            some (.ok ⟨atlases, Packer.createManifest atlases inputName⟩)) := by
  unfold Packer.packAssets
  rw [hen]
  rw [if_neg (by simp)]
  dsimp only
  rw [List.isEmpty_eq_false.mpr hne]
  simp only [Bool.false_eq_true, if_false]

/-! ### Empty inputs (C10) -/

theorem staticGo_no_image (dedupe : Bool) :
    ∀ (assets : List Asset) (seen : List String),
      (∀ a ∈ assets, a.ty ≠ AssetType.image) →
      Packer.staticAssetsGo dedupe seen assets = [] := by
  intro assets
  induction assets with
  | nil => intro seen _; rfl
  | cons a rest ih =>
    intro seen hni
    rw [Packer.staticAssetsGo,
      if_neg (hni a (List.mem_cons_self _ _))]
    exact ih seen (fun x hx => hni x (List.mem_cons_of_mem _ hx))

theorem detectGo_no_image (m : Packer.FrameMatcher) :
    ∀ (assets : List Asset) (statics : List Sprite)
      (groups : List (String × List (Nat × Sprite))),
      (∀ a ∈ assets, a.ty ≠ AssetType.image) →
      Packer.detectGo m statics groups assets = (statics, groups) := by
  intro assets
  induction assets with
  | nil => intro statics groups _; rfl
  | cons a rest ih =>
    intro statics groups hni
    rw [Packer.detectGo, if_neg (hni a (List.mem_cons_self _ _))]
    exact ih statics groups (fun x hx => hni x (List.mem_cons_of_mem _ hx))

theorem assetsToSprites_no_image (opts : PackOptions) (m : Packer.FrameMatcher)
    (reorder : List (String × List (Nat × Sprite)) →
      List (String × List (Nat × Sprite)))
    (assets : List Asset)
    (hre : (reorder (Packer.detectGo m [] [] assets).2).Perm
      (Packer.detectGo m [] [] assets).2)
    (hni : ∀ a ∈ assets, a.ty ≠ AssetType.image) :
    Packer.assetsToSprites opts m reorder assets = [] := by
  unfold Packer.assetsToSprites
  cases opts.mode with
  | Static sopts => exact staticGo_no_image _ assets [] hni
  | Animated aopts =>
    unfold Packer.detectAnimationsOrd
    have hd := detectGo_no_image m assets [] [] hni
    rw [hd] at hre ⊢
    dsimp only
    have : reorder [] = [] := hre.eq_nil
    rw [this]
    rfl

/-! ### Concrete fixtures used by witnesses and counterexamples -/

/-- A `w × h` image filled with one opaque red pixel value. -/
def timg (w h : Nat) : ImgData :=
  ⟨List.replicate h (List.replicate w ⟨255, 0, 0, 255⟩)⟩

/-- Static options: 4×4 page, no padding/extrude/trim/pow2/limit,
area sort, no dedupe. -/
def fxStatic44 : StaticOptions :=
  ⟨(4, 4), false, 0, 0, false, PackAlgorithm.maxRects, none, PackSort.area, false⟩

def fxOpts44 : PackOptions := ⟨true, PackMode.Static fxStatic44⟩

def fxItems2 : List PackableItem :=
  [PackableItem.Static ⟨"a", timg 2 2, ⟨2, 2⟩, "h1"⟩,
   PackableItem.Static ⟨"b", timg 2 2, ⟨2, 2⟩, "h2"⟩]

/-- C2's failing input: one 4×4 sprite on a 4×4 page with padding 1
passes validation, yet can never be placed. -/
def fxStallOpts : PackOptions :=
  ⟨true, PackMode.Static
    ⟨(4, 4), false, 1, 0, false, PackAlgorithm.maxRects, none, PackSort.area, false⟩⟩

def fxStallItem : PackableItem :=
  PackableItem.Static ⟨"big", timg 4 4, ⟨4, 4⟩, "hb"⟩

/-- A concrete stand-in for the compiled frame pattern, recognising the
frames of the two animation groups `a` and `b`. -/
def fxMatcherAB : Packer.FrameMatcher := fun s =>
  if s = "a_1" then some (some "a", some 1)
  else if s = "a_2" then some (some "a", some 2)
  else if s = "b_1" then some (some "b", some 1)
  else if s = "b_2" then some (some "b", some 2)
  else none

def fxAnimOpts : AnimatedOptions :=
  ⟨2, AnimationLayout.horizontalStrip, 100, true, 0, 0⟩

/-- Four 1×1 frames forming the two animation groups `a` and `b`. -/
def fxAssetsAB : List Asset :=
  [⟨"a_1", timg 1 1, "k1", AssetType.image⟩,
   ⟨"b_1", timg 1 1, "k2", AssetType.image⟩,
   ⟨"a_2", timg 1 1, "k3", AssetType.image⟩,
   ⟨"b_2", timg 1 1, "k4", AssetType.image⟩]

/-- Two frames of one group sharing the same content hash. -/
def fxAssetsSameHash : List Asset :=
  [⟨"a_1", timg 1 1, "same", AssetType.image⟩,
   ⟨"a_2", timg 1 1, "same", AssetType.image⟩]

/-- Scenario A's matcher: the pattern `(?P<name>.+)_(\d+)` applied to the
three walk-frame stems. -/
def fxWalkMatcher : Packer.FrameMatcher := fun s =>
  if s = "walk_001" then some (some "walk", some 1)
  else if s = "walk_002" then some (some "walk", some 2)
  else if s = "walk_003" then some (some "walk", some 3)
  else none

/-- Scenario A's assets: `walk_001.png` … `walk_003.png`, each 2×2. -/
def fxWalkAssets : List Asset :=
  [⟨"walk_001", timg 2 2, "hw1", AssetType.image⟩,
   ⟨"walk_002", timg 2 2, "hw2", AssetType.image⟩,
   ⟨"walk_003", timg 2 2, "hw3", AssetType.image⟩]

/-- The one animation group Scenario A's grouping pass produces. -/
def fxWalkGroup : String × List (Nat × Sprite) :=
  ("walk",
    [(1, ⟨"walk_001", timg 2 2, ⟨2, 2⟩, "hw1"⟩),
     (2, ⟨"walk_002", timg 2 2, ⟨2, 2⟩, "hw2"⟩),
     (3, ⟨"walk_003", timg 2 2, ⟨2, 2⟩, "hw3"⟩)])

/-- One 5×5 sprite, too large for the 4×4 page of `fxOpts44`. -/
def fxOversizeAssets : List Asset :=
  [⟨"big5", timg 5 5, "h5", AssetType.image⟩]

/-- 2×2 page, page limit 1 — two 2×2 sprites need two pages. -/
def fxOptsLimit : PackOptions :=
  ⟨true, PackMode.Static
    ⟨(2, 2), false, 0, 0, false, PackAlgorithm.maxRects, some 1, PackSort.area, false⟩⟩

def fxAssets2 : List Asset :=
  [⟨"a", timg 2 2, "h1", AssetType.image⟩,
   ⟨"b", timg 2 2, "h2", AssetType.image⟩]

/-- One non-image asset. -/
def fxAssetsNoImage : List Asset :=
  [⟨"doc", timg 1 1, "hd", AssetType.other⟩]

/-- A matcher that matches nothing (static mode ignores it anyway). -/
def fxNoMatcher : Packer.FrameMatcher := fun _ => none

/-! ### Claim theorems -/

/-- C1: for every item set that passes the size validator and is packed
under the configured max page size, every `PackedSprite` rect of every
returned atlas page lies fully within that page's bounds `[0, M)` on both
axes, and no two `PackedSprite` rects on the same page overlap (the page
bounds equal the configured max size whenever power-of-two rounding is
off). -/
theorem packed_rects_in_bounds_and_disjoint
    (opts : PackOptions) (items : List PackableItem) (atlases : List Atlas)
    (hval : Packer.validateSpriteSizes opts items = Except.ok ())
    (hpack : Packer.packSpritesToAtlases opts items = some atlases) :
    ∀ a ∈ atlases,
      (opts.power_of_two = false →
        a.size = ⟨opts.max_size.1, opts.max_size.2⟩) ∧
      (∀ ps ∈ a.sprites, ps.rect.inBounds a.size) ∧
      List.Pairwise (fun x y => ¬ x.rect.overlaps y.rect) a.sprites := by
  intro a ha
  obtain ⟨hsz, hin, hdisj⟩ :=
    Packer.packLoop_inv opts (items.length + 1) items 0 atlases hpack a ha
  refine ⟨?_, hin, hdisj⟩
  intro hpow
  rw [hsz]
  unfold Packer.resolvedPageSize
  rw [hpow]
  simp only [Bool.false_eq_true, if_false]

theorem packed_rects_in_bounds_and_disjoint_witness :
    Packer.validateSpriteSizes fxOpts44 fxItems2 = Except.ok () ∧
    ∀ a ∈ (Packer.packSpritesToAtlases fxOpts44 fxItems2).getD [],
      (fxOpts44.power_of_two = false →
        a.size = ⟨fxOpts44.max_size.1, fxOpts44.max_size.2⟩) ∧
      (∀ ps ∈ a.sprites, ps.rect.inBounds a.size) ∧
      List.Pairwise (fun x y => ¬ x.rect.overlaps y.rect) a.sprites :=
  ⟨rfl, packed_rects_in_bounds_and_disjoint fxOpts44 fxItems2 _ rfl rfl⟩

/-- C2 (the code has no stall guard): this single 4×4 sprite passes the
size validator under a 4×4 page with padding 1, yet with the padding baked
in it can never be placed, every page-creation pass places zero items, and
the source loop of `pack_sprites_to_atlases` — embedded as `packLoop` with
explicit fuel — never terminates: no amount of fuel produces a result, and
no error is ever reported.  The claim's required `NoProgress` failure does
not exist in the code. -/
theorem pack_loop_stalls_forever_without_guard :
    Packer.validateSpriteSizes fxStallOpts [fxStallItem] = Except.ok () ∧
    (∀ fuel pageIndex,
      Packer.packLoop fxStallOpts fuel [fxStallItem] pageIndex = none) ∧
    Packer.packSpritesToAtlases fxStallOpts [fxStallItem] = none := by
  have hstep : ∀ pageIndex : Nat,
      (Packer.packSingleAtlas fxStallOpts [fxStallItem] pageIndex).2 =
        [fxStallItem] := fun _ => rfl
  have hloop : ∀ fuel pageIndex,
      Packer.packLoop fxStallOpts fuel [fxStallItem] pageIndex = none := by
    intro fuel
    induction fuel with
    | zero => intro pageIndex; rfl
    | succ fuel ih =>
      intro pageIndex
      rw [Packer.packLoop]
      rw [hstep pageIndex, ih (pageIndex + 1)]
      rfl
  exact ⟨rfl, hloop, hloop 2 0⟩

/-- C4 (the configured strategy is never dispatched): `pack_single_atlas`
constructs a `MaxRectsPacker` unconditionally and never reads
`StaticOptions::algorithm`, so `pack_assets` behaves identically whether
the options select `guillotine` or `max_rects` — for every input, the two
configurations give equal results, refuting that the configured packing
strategy determines the placement algorithm used per page. -/
theorem pack_algorithm_never_dispatched
    (en : Bool) (ms : Nat × Nat) (pot : Bool) (pad ext : Nat) (atr : Bool)
    (alg1 alg2 : PackAlgorithm) (pl : Option Nat) (srt : PackSort) (dd : Bool)
    (m : Packer.FrameMatcher)
    (reorder : List (String × List (Nat × Sprite)) →
      List (String × List (Nat × Sprite)))
    (assets : List Asset) (inputName : String) :
    Packer.packAssets
        ⟨en, PackMode.Static ⟨ms, pot, pad, ext, atr, alg1, pl, srt, dd⟩⟩
        m reorder assets inputName =
      Packer.packAssets
        ⟨en, PackMode.Static ⟨ms, pot, pad, ext, atr, alg2, pl, srt, dd⟩⟩
        m reorder assets inputName := by
  simp only [Packer.packAssets, Packer.assetsToSprites, Packer.sortSprites,
    Packer.packSpritesToAtlases, PackOptions.sort, PackOptions.page_limit]
  rw [@validate_congr
      ⟨en, PackMode.Static ⟨ms, pot, pad, ext, atr, alg1, pl, srt, dd⟩⟩
      ⟨en, PackMode.Static ⟨ms, pot, pad, ext, atr, alg2, pl, srt, dd⟩⟩
      rfl,
    @packLoop_congr
      ⟨en, PackMode.Static ⟨ms, pot, pad, ext, atr, alg1, pl, srt, dd⟩⟩
      ⟨en, PackMode.Static ⟨ms, pot, pad, ext, atr, alg2, pl, srt, dd⟩⟩
      rfl rfl rfl rfl rfl]

/-- C5: in static mode with dedupe enabled, among assets sharing a content
hash exactly the first-encountered one produces a `PackableItem` (the
refinement spec `firstPerHash` says precisely that); with dedupe disabled
every image asset survives; and in animated mode no item is ever removed
by content hash — whenever the extracted `(group, frame)` keys are
pairwise distinct, every image asset is accounted for in the output
(weighting a strip by its frame count), with no condition at all on the
hashes. -/
theorem static_dedupe_first_per_hash_animated_never :
    (∀ assets : List Asset,
      Packer.staticAssetsGo true [] assets = firstPerHash assets) ∧
    (∀ assets : List Asset,
      Packer.staticAssetsGo false [] assets =
        (assets.filter (fun a => decide (a.ty = AssetType.image))).map
          (fun a => PackableItem.Static (Packer.mkStaticSprite a))) ∧
    (∀ (m : Packer.FrameMatcher) (aopts : AnimatedOptions)
      (reorder : List (String × List (Nat × Sprite)) →
        List (String × List (Nat × Sprite)))
      (assets : List Asset),
      (frameKeys m assets).Nodup →
      (reorder (Packer.detectGo m [] [] assets).2).Perm
        (Packer.detectGo m [] [] assets).2 →
      ((Packer.detectAnimationsOrd m aopts reorder assets).map itemWeight).sum =
        imageCount assets) := by
  refine ⟨?_, ?_, ?_⟩
  · intro assets
    rw [staticGo_dedupe_spec assets []]
    congr 1
    apply List.filter_eq_self.mpr
    intro a _
    simp
  · intro assets
    exact staticGo_nodedupe assets []
  · intro m aopts reorder assets hnd hr
    obtain ⟨hsum, hne⟩ := detectGo_conserve m assets [] []
      (by simpa [groupKeys] using hnd) (by intro q hq; cases hq)
    unfold Packer.detectAnimationsOrd
    dsimp only
    rw [List.map_append, List.sum_append, weight_map_static,
      processGroups_weight aopts _ (fun g hg => hne g (hr.subset hg))]
    have htf : totalFrames (reorder (Packer.detectGo m [] [] assets).2) =
        totalFrames (Packer.detectGo m [] [] assets).2 := by
      unfold totalFrames
      exact (hr.map (fun g => g.2.length)).sum_eq
    rw [htf]
    have h0 : totalFrames ([] : List (String × List (Nat × Sprite))) = 0 := rfl
    rw [List.length_nil, h0] at hsum
    omega

/-- C6: the synthesized strip canvas is `(w·N, h)` for horizontal-strip
layout, `(w, h·N)` for vertical-strip layout, and `(w·c, h·⌈N/c⌉)` for
grid layout with `c` the explicit column count or `⌈√N⌉` (the second
conjunct pins `ceilSqrt` as the exact ceiling of the square root); and
Scenario A — three 2×2 frames, min-frames 2, horizontal strip — yields
exactly one `AnimationStrip` with `frame_count` 3 and composed size 6×2,
for every `HashMap` iteration order. -/
theorem strip_canvas_sizes_and_scenario_a :
    (∀ (animName : String) (f0 : Sprite) (rest : List Sprite)
      (layout : AnimationLayout) (dur : Nat) (loops : Bool)
      (strip : AnimationStrip),
      Packer.combineFramesIntoStrip animName (f0 :: rest) layout dur loops =
        some strip →
      strip.frame_count = rest.length + 1 ∧
      strip.frame_size = ⟨f0.size.width, f0.size.height⟩ ∧
      (layout = AnimationLayout.horizontalStrip →
        strip.strip_sprite.size =
          ⟨f0.size.width * (rest.length + 1), f0.size.height⟩) ∧
      (layout = AnimationLayout.verticalStrip →
        strip.strip_sprite.size =
          ⟨f0.size.width, f0.size.height * (rest.length + 1)⟩) ∧
      (∀ copt, layout = AnimationLayout.grid copt →
        strip.strip_sprite.size =
          ⟨f0.size.width * copt.getD (Packer.ceilSqrt (rest.length + 1)),
            f0.size.height * Packer.divCeil (rest.length + 1)
              (copt.getD (Packer.ceilSqrt (rest.length + 1)))⟩)) ∧
    (∀ n : Nat, n ≤ Packer.ceilSqrt n * Packer.ceilSqrt n ∧
      ∀ k : Nat, n ≤ k * k → Packer.ceilSqrt n ≤ k) ∧
    (∀ reorder : List (String × List (Nat × Sprite)) →
        List (String × List (Nat × Sprite)),
      (reorder (Packer.detectGo fxWalkMatcher [] [] fxWalkAssets).2).Perm
        (Packer.detectGo fxWalkMatcher [] [] fxWalkAssets).2 →
      ∃ strip : AnimationStrip,
        Packer.detectAnimationsOrd fxWalkMatcher fxAnimOpts reorder
          fxWalkAssets = [PackableItem.Animated strip] ∧
        strip.frame_count = 3 ∧
        strip.strip_sprite.size = ⟨6, 2⟩) := by
  refine ⟨?_, ?_, ?_⟩
  · intro animName f0 rest layout dur loops strip h
    rw [Packer.combineFramesIntoStrip.eq_def] at h
    dsimp only at h
    simp only [Option.some.injEq] at h
    subst h
    refine ⟨rfl, rfl, ?_, ?_, ?_⟩
    · intro hl
      subst hl
      rfl
    · intro hl
      subst hl
      rfl
    · intro copt hl
      subst hl
      rfl
  · intro n
    constructor
    · unfold Packer.ceilSqrt
      by_cases hsq : Nat.sqrt n * Nat.sqrt n = n
      · rw [if_pos hsq]
        rw [hsq]
      · rw [if_neg hsq]
        exact Nat.le_of_lt (Nat.lt_succ_sqrt n)
    · intro k hk
      have hsk : Nat.sqrt n ≤ k := by
        have := Nat.sqrt_le_sqrt hk
        rwa [Nat.sqrt_eq k] at this
      unfold Packer.ceilSqrt
      by_cases hsq : Nat.sqrt n * Nat.sqrt n = n
      · rw [if_pos hsq]
        exact hsk
      · rw [if_neg hsq]
        rcases Nat.lt_or_ge (Nat.sqrt n) k with hlt | hge
        · omega
        · exfalso
          have heq : Nat.sqrt n = k := Nat.le_antisymm hsk hge
          apply hsq
          have h1 : n ≤ Nat.sqrt n * Nat.sqrt n := by rw [heq]; exact hk
          have h2 : Nat.sqrt n * Nat.sqrt n ≤ n := Nat.sqrt_le n
          omega
  · intro reorder hr
    have hgs : (Packer.detectGo fxWalkMatcher [] [] fxWalkAssets).2 =
        [fxWalkGroup] := rfl
    rw [hgs] at hr
    have hid : reorder [fxWalkGroup] = [fxWalkGroup] :=
      List.perm_singleton.mp hr
    unfold Packer.detectAnimationsOrd
    dsimp only
    rw [hgs, hid]
    exact ⟨_, rfl, rfl, rfl⟩

/-- C5 witness: two same-hash frames both survive animated detection, and
the dedupe spec holds at the same input in static mode. -/
theorem static_dedupe_first_per_hash_animated_never_witness :
    (frameKeys fxMatcherAB fxAssetsSameHash).Nodup ∧
    ((Packer.detectAnimationsOrd fxMatcherAB fxAnimOpts id
      fxAssetsSameHash).map itemWeight).sum = imageCount fxAssetsSameHash ∧
    Packer.staticAssetsGo true [] fxAssetsSameHash =
      firstPerHash fxAssetsSameHash :=
  ⟨by decide,
    static_dedupe_first_per_hash_animated_never.2.2 fxMatcherAB fxAnimOpts id
      fxAssetsSameHash (by decide) (List.Perm.refl _),
    static_dedupe_first_per_hash_animated_never.1 fxAssetsSameHash⟩

/-- C6 witness: the scenario instantiated at the identity iteration
order. -/
theorem strip_canvas_sizes_and_scenario_a_witness :
    ∃ strip : AnimationStrip,
      Packer.detectAnimationsOrd fxWalkMatcher fxAnimOpts id fxWalkAssets =
        [PackableItem.Animated strip] ∧
      strip.frame_count = 3 ∧
      strip.strip_sprite.size = ⟨6, 2⟩ :=
  strip_canvas_sizes_and_scenario_a.2.2 id (List.Perm.refl _)

/-- C7: `validate_sprite_sizes` makes the whole `pack_assets` call fail —
with an error carrying the offending sprite's name and its measured
width×height — exactly when some item's representative sprite exceeds the
configured maximum page dimensions on either axis.  The sizes compared are
those attached by `assets_to_sprites` (decode-time, pre-trim): validation
runs on the sorted, untrimmed items, and trimming happens only later,
inside `pack_single_atlas`. -/
theorem oversize_sprite_fails_whole_pack
    (opts : PackOptions) (m : Packer.FrameMatcher)
    (reorder : List (String × List (Nat × Sprite)) →
      List (String × List (Nat × Sprite)))
    (assets : List Asset) (inputName : String)
    (hen : opts.enabled = true)
    (hne : Packer.assetsToSprites opts m reorder assets ≠ []) :
    ((∃ n w h mw mh, Packer.packAssets opts m reorder assets inputName =
        some (Except.error (PackError.oversizeSprite n w h mw mh))) ↔
      ∃ item ∈ Packer.assetsToSprites opts m reorder assets,
        opts.max_size.1 < item.sprite.size.width ∨
        opts.max_size.2 < item.sprite.size.height) ∧
    (∀ n w h mw mh,
      Packer.packAssets opts m reorder assets inputName =
        some (Except.error (PackError.oversizeSprite n w h mw mh)) →
      mw = opts.max_size.1 ∧ mh = opts.max_size.2 ∧
      ∃ item ∈ Packer.assetsToSprites opts m reorder assets,
        item.sprite.name = n ∧ item.sprite.size.width = w ∧
        item.sprite.size.height = h ∧ (mw < w ∨ mh < h)) := by
  have hbranch := packAssets_eq_branch opts m reorder assets inputName hen hne
  have hmem : ∀ x : PackableItem,
      x ∈ Packer.sortSprites opts (Packer.assetsToSprites opts m reorder assets) ↔
      x ∈ Packer.assetsToSprites opts m reorder assets := by
    intro x
    exact (List.perm_insertionSort _ _).mem_iff
  have hover : ∀ n w h mw mh,
      Packer.packAssets opts m reorder assets inputName =
        some (Except.error (PackError.oversizeSprite n w h mw mh)) →
      Packer.validateSpriteSizes opts (Packer.sortSprites opts
        (Packer.assetsToSprites opts m reorder assets)) =
        Except.error (PackError.oversizeSprite n w h mw mh) := by
    intro n w h mw mh heq
    rw [hbranch] at heq
    cases hv : Packer.validateSpriteSizes opts (Packer.sortSprites opts
        (Packer.assetsToSprites opts m reorder assets)) with
    | error e =>
      rw [hv] at heq
      simp only [Option.some.injEq, Except.error.injEq] at heq
      rw [heq]
    | ok u =>
      rw [hv] at heq
      dsimp only at heq
      cases hp : Packer.packSpritesToAtlases opts (Packer.sortSprites opts
          (Packer.assetsToSprites opts m reorder assets)) with
      | none => rw [hp] at heq; cases heq
      | some atlases =>
        rw [hp] at heq
        dsimp only at heq
        cases hpl : opts.page_limit with
        | none => rw [hpl] at heq; simp at heq
        | some limit =>
          rw [hpl] at heq
          dsimp only at heq
          by_cases hgt : atlases.length > limit
          · rw [if_pos hgt] at heq
            simp at heq
          · rw [if_neg hgt] at heq
            simp at heq
  constructor
  · constructor
    · rintro ⟨n, w, h, mw, mh, heq⟩
      have hv := hover n w h mw mh heq
      obtain ⟨h1, h2, item, hitem, _, hw, hh, hlt⟩ :=
        validate_error_sound opts _ n w h mw mh hv
      exact ⟨item, (hmem item).mp hitem, by omega⟩
    · rintro ⟨item, hitem, hov⟩
      cases hv : Packer.validateSpriteSizes opts (Packer.sortSprites opts
          (Packer.assetsToSprites opts m reorder assets)) with
      | ok u =>
        exfalso
        have := (validate_ok_iff opts _).mp (by cases u; exact hv) item
          ((hmem item).mpr hitem)
        omega
      | error e =>
        obtain ⟨n, w, h, he⟩ := validate_error_shape opts _ e hv
        refine ⟨n, w, h, opts.max_size.1, opts.max_size.2, ?_⟩
        rw [hbranch, hv, he]
  · intro n w h mw mh heq
    have hv := hover n w h mw mh heq
    obtain ⟨h1, h2, item, hitem, hrest⟩ :=
      validate_error_sound opts _ n w h mw mh hv
    exact ⟨h1, h2, item, (hmem item).mp hitem, hrest⟩

/-- C8: with a page limit configured, `pack_assets` fails — returning the
`PageLimitExceeded` error that names the required page count and the
allowed limit, and no atlases at all — exactly when the produced page
count exceeds the limit; within the limit no such error occurs. -/
theorem page_limit_enforced
    (opts : PackOptions) (m : Packer.FrameMatcher)
    (reorder : List (String × List (Nat × Sprite)) →
      List (String × List (Nat × Sprite)))
    (assets : List Asset) (inputName : String) (atlases : List Atlas)
    (hen : opts.enabled = true)
    (hne : Packer.assetsToSprites opts m reorder assets ≠ [])
    (hval : Packer.validateSpriteSizes opts (Packer.sortSprites opts
      (Packer.assetsToSprites opts m reorder assets)) = Except.ok ())
    (hpack : Packer.packSpritesToAtlases opts (Packer.sortSprites opts
      (Packer.assetsToSprites opts m reorder assets)) = some atlases) :
    ∀ required limit,
      Packer.packAssets opts m reorder assets inputName =
        some (Except.error (PackError.pageLimitExceeded required limit)) ↔
      (opts.page_limit = some limit ∧ required = atlases.length ∧
        limit < required) := by
  intro required limit
  rw [packAssets_eq_branch opts m reorder assets inputName hen hne, hval]
  dsimp only
  rw [hpack]
  dsimp only
  cases hpl : opts.page_limit with
  | none =>
    dsimp only
    constructor
    · intro h; simp at h
    · rintro ⟨h, _⟩; cases h
  | some l =>
    dsimp only
    by_cases hgt : atlases.length > l
    · rw [if_pos hgt]
      constructor
      · intro h
        simp only [Option.some.injEq, Except.error.injEq,
          PackError.pageLimitExceeded.injEq] at h
        refine ⟨by rw [h.2], by rw [h.1], by omega⟩
      · rintro ⟨h1, h2, h3⟩
        simp only [Option.some.injEq] at h1
        subst h2
        cases h1
        rfl
    · rw [if_neg hgt]
      constructor
      · intro h; simp at h
      · rintro ⟨h1, h2, h3⟩
        simp only [Option.some.injEq] at h1
        cases h1
        subst h2
        omega

/-- C10: when packing is enabled and the asset list holds no image-kind
asset (in particular, when it is empty), `pack_assets` returns `Ok` with
an empty atlas list and an empty manifest, not an error. -/
theorem no_image_assets_yield_empty_ok
    (opts : PackOptions) (m : Packer.FrameMatcher)
    (reorder : List (String × List (Nat × Sprite)) →
      List (String × List (Nat × Sprite)))
    (assets : List Asset) (inputName : String)
    (hen : opts.enabled = true)
    (hre : (reorder (Packer.detectGo m [] [] assets).2).Perm
      (Packer.detectGo m [] [] assets).2)
    (hni : ∀ a ∈ assets, a.ty ≠ AssetType.image) :
    Packer.packAssets opts m reorder assets inputName =
      some (Except.ok ⟨[], AtlasManifest.new inputName⟩) ∧
    (AtlasManifest.new inputName).sprites = [] := by
  refine ⟨?_, rfl⟩
  have hempty := assetsToSprites_no_image opts m reorder assets hre hni
  unfold Packer.packAssets
  rw [hen]
  rw [if_neg (by simp)]
  dsimp only
  rw [hempty]
  rfl

/-- C7 witness: a single 5×5 sprite on a 4×4 page makes the whole call
fail with the oversize error. -/
theorem oversize_sprite_fails_whole_pack_witness :
    fxOpts44.enabled = true ∧
    Packer.assetsToSprites fxOpts44 fxNoMatcher id fxOversizeAssets ≠ [] ∧
    (((∃ n w h mw mh,
        Packer.packAssets fxOpts44 fxNoMatcher id fxOversizeAssets "in" =
          some (Except.error (PackError.oversizeSprite n w h mw mh))) ↔
      ∃ item ∈ Packer.assetsToSprites fxOpts44 fxNoMatcher id fxOversizeAssets,
        fxOpts44.max_size.1 < item.sprite.size.width ∨
        fxOpts44.max_size.2 < item.sprite.size.height) ∧
    (∀ n w h mw mh,
      Packer.packAssets fxOpts44 fxNoMatcher id fxOversizeAssets "in" =
        some (Except.error (PackError.oversizeSprite n w h mw mh)) →
      mw = fxOpts44.max_size.1 ∧ mh = fxOpts44.max_size.2 ∧
      ∃ item ∈ Packer.assetsToSprites fxOpts44 fxNoMatcher id fxOversizeAssets,
        item.sprite.name = n ∧ item.sprite.size.width = w ∧
        item.sprite.size.height = h ∧ (mw < w ∨ mh < h))) :=
  ⟨rfl, by decide,
    oversize_sprite_fails_whole_pack fxOpts44 fxNoMatcher id fxOversizeAssets
      "in" rfl (by decide)⟩

/-- C8 witness: Scenario D — two 2×2 sprites on a 2×2 page with limit 1
fail with `PageLimitExceeded`, naming required 2 vs. allowed 1. -/
theorem page_limit_enforced_witness :
    Packer.packAssets fxOptsLimit fxNoMatcher id fxAssets2 "in" =
      some (Except.error (PackError.pageLimitExceeded 2 1)) :=
  (page_limit_enforced fxOptsLimit fxNoMatcher id fxAssets2 "in"
    ((Packer.packSpritesToAtlases fxOptsLimit (Packer.sortSprites fxOptsLimit
      (Packer.assetsToSprites fxOptsLimit fxNoMatcher id fxAssets2))).getD [])
    rfl (by decide) rfl rfl 2 1).mpr ⟨rfl, rfl, by decide⟩

/-- C10 witness: one non-image asset yields `Ok` with no atlases and an
empty manifest. -/
theorem no_image_assets_yield_empty_ok_witness :
    Packer.packAssets fxOpts44 fxNoMatcher id fxAssetsNoImage "in" =
      some (Except.ok ⟨[], AtlasManifest.new "in"⟩) ∧
    (AtlasManifest.new "in").sprites = [] :=
  no_image_assets_yield_empty_ok fxOpts44 fxNoMatcher id fxAssetsNoImage "in"
    rfl (List.Perm.refl _) (by decide)

/-- C9: `sort_sprites` imposes a total order — the comparator relation is
total and transitive, every tie is between equal-named items (so the name
tiebreak settles all distinct-name pairs), the sorted output is an ordered
permutation of the input — and sorting is idempotent: re-sorting a sorted
sequence changes nothing. -/
theorem sort_sprites_total_order_and_idempotent :
    (∀ (k : PackSort) (a b : PackableItem),
      Packer.itemLE k a b ∨ Packer.itemLE k b a) ∧
    (∀ (k : PackSort) (a b c : PackableItem),
      Packer.itemLE k a b → Packer.itemLE k b c → Packer.itemLE k a c) ∧
    (∀ (k : PackSort) (a b : PackableItem),
      Packer.itemLE k a b → Packer.itemLE k b a →
        a.sprite.name = b.sprite.name) ∧
    (∀ (opts : PackOptions) (items : List PackableItem),
      (Packer.sortSprites opts items).Sorted (Packer.itemLE opts.sort) ∧
      (Packer.sortSprites opts items).Perm items) ∧
    (∀ (opts : PackOptions) (items : List PackableItem),
      Packer.sortSprites opts (Packer.sortSprites opts items) =
        Packer.sortSprites opts items) := by
  refine ⟨itemLE_total, fun _ _ _ _ => itemLE_trans, fun _ _ _ => itemLE_antisymm_names,
    fun opts items => ⟨List.sorted_insertionSort _ items, List.perm_insertionSort _ items⟩,
    fun opts items => ?_⟩
  exact (List.sorted_insertionSort (Packer.itemLE opts.sort) items).insertionSort_eq

/-- C3 counterexample: `detect_animations` does not consume the
animation-name groups in an explicitly ordered iteration — it iterates a
`std::collections::HashMap`, whose order is incidental.  Reversal is a
permutation of the grouped entries (i.e. a possible `HashMap` iteration
order), yet it changes the item sequence `detect_animations` returns for
this four-frame input. -/
theorem detect_animations_depends_on_map_order :
    (List.reverse (Packer.detectGo fxMatcherAB [] [] fxAssetsAB).2).Perm
      (Packer.detectGo fxMatcherAB [] [] fxAssetsAB).2 ∧
    Packer.detectAnimationsOrd fxMatcherAB fxAnimOpts List.reverse fxAssetsAB ≠
      Packer.detectAnimationsOrd fxMatcherAB fxAnimOpts id fxAssetsAB := by
  constructor
  · exact List.reverse_perm _
  · decide

/-- C3 (amended): `pack_assets` is deterministic — placements, rendered
pages and the manifest are identical across runs — for every `HashMap`
iteration order of the animation-name groups, provided the packable items
carry pairwise-distinct names; the groups are consumed in the incidental
map order, and it is the stable name-tiebroken sort (not an explicitly
ordered iteration) that makes the result independent of that order. -/
theorem pack_assets_deterministic_up_to_group_order
    (opts : PackOptions) (m : Packer.FrameMatcher)
    (r1 r2 : List (String × List (Nat × Sprite)) →
      List (String × List (Nat × Sprite)))
    (assets : List Asset) (inputName : String)
    (hp1 : (r1 (Packer.detectGo m [] [] assets).2).Perm
      (Packer.detectGo m [] [] assets).2)
    (hp2 : (r2 (Packer.detectGo m [] [] assets).2).Perm
      (Packer.detectGo m [] [] assets).2)
    (hnames : ((Packer.assetsToSprites opts m id assets).map
      (fun i => i.sprite.name)).Nodup) :
    Packer.packAssets opts m r1 assets inputName =
      Packer.packAssets opts m r2 assets inputName := by
  have hperm : ∀ (r : List (String × List (Nat × Sprite)) →
        List (String × List (Nat × Sprite))),
      (r (Packer.detectGo m [] [] assets).2).Perm
        (Packer.detectGo m [] [] assets).2 →
      (Packer.assetsToSprites opts m r assets).Perm
        (Packer.assetsToSprites opts m id assets) := by
    intro r hr
    unfold Packer.assetsToSprites
    cases opts.mode with
    | Static sopts => exact List.Perm.refl _
    | Animated aopts =>
      unfold Packer.detectAnimationsOrd
      apply List.Perm.append_left
      unfold Packer.processGroups
      exact List.Perm.flatMap_right _ (hr.trans (List.Perm.refl _))
  have hperm12 : (Packer.assetsToSprites opts m r1 assets).Perm
      (Packer.assetsToSprites opts m r2 assets) :=
    (hperm r1 hp1).trans (hperm r2 hp2).symm
  have hnames1 : ((Packer.assetsToSprites opts m r1 assets).map
      (fun i => i.sprite.name)).Nodup :=
    (((hperm r1 hp1).map _).nodup_iff).mpr hnames
  have hsorted : Packer.sortSprites opts (Packer.assetsToSprites opts m r1 assets) =
      Packer.sortSprites opts (Packer.assetsToSprites opts m r2 assets) :=
    insertionSort_eq_of_perm hperm12 (antisymm_of_nodup_names hnames1)
  by_cases hnil : Packer.assetsToSprites opts m r1 assets = []
  · have hnil2 : Packer.assetsToSprites opts m r2 assets = [] :=
      (hnil ▸ hperm12).nil_eq.symm
    unfold Packer.packAssets
    rw [hnil, hnil2]
  · have hnil2 : Packer.assetsToSprites opts m r2 assets ≠ [] := by
      intro h
      exact hnil (hperm12.trans (h ▸ List.Perm.refl _)).eq_nil
    unfold Packer.packAssets
    dsimp only
    rw [List.isEmpty_eq_false.mpr hnil, List.isEmpty_eq_false.mpr hnil2, hsorted]

/-- C3 witness for the amended theorem: at the concrete two-group input,
reversed and identity group orders give identical `pack_assets` results. -/
theorem pack_assets_deterministic_up_to_group_order_witness :
    (List.reverse (Packer.detectGo fxMatcherAB [] [] fxAssetsAB).2).Perm
      (Packer.detectGo fxMatcherAB [] [] fxAssetsAB).2 ∧
    ((Packer.assetsToSprites ⟨true, PackMode.Animated fxAnimOpts⟩ fxMatcherAB id
      fxAssetsAB).map (fun i => i.sprite.name)).Nodup ∧
    Packer.packAssets ⟨true, PackMode.Animated fxAnimOpts⟩ fxMatcherAB
        List.reverse fxAssetsAB "in" =
      Packer.packAssets ⟨true, PackMode.Animated fxAnimOpts⟩ fxMatcherAB
        id fxAssetsAB "in" :=
  ⟨List.reverse_perm _, by decide,
    pack_assets_deterministic_up_to_group_order
      ⟨true, PackMode.Animated fxAnimOpts⟩ fxMatcherAB List.reverse id
      fxAssetsAB "in" (List.reverse_perm _) (List.Perm.refl _) (by decide)⟩

end Asphalt
